import Mathlib

/-!
Verification of the criteria-driven evaluation reconciliation engine of the
salam-performance-evaluator repository.  The TypeScript source is shallowly
embedded: JS strings become `String`/`List Char`, JS numbers become `Int`,
JS `Map`s and plain objects become association lists with JS `Map.set`/
property-assignment semantics, and the falsy-coalescing operator `||` is
modelled explicitly (`jsOr`, `jsOrStr`).
-/

set_option maxHeartbeats 1000000

/-- JS `a || b` for an optionally-defined number `a`: `undefined` and `0` are
falsy, every other number is truthy. -/
def jsOr (a : Option Int) (b : Int) : Int :=
  match a with
  | none => b
  | some v => if v = 0 then b else v

/-- JS `a || b` for an optionally-defined string `a`: `undefined` and the empty
string are falsy. -/
def jsOrStr (a : Option String) (b : String) : String :=
  match a with
  | none => b
  | some s => if s = "" then b else s

/-! ## FieldNameMapper: `createFieldName` (EditEmployeeDialog.tsx lines 45-52) -/

/-- ASCII characters matched by the regex class `[a-z0-9]`. -/
def isLowerAlphaNum (c : Char) : Bool :=
  (97 ≤ c.toNat && c.toNat ≤ 122) || (48 ≤ c.toNat && c.toNat ≤ 57)

/-- Characters matched by the regex class `\s` (space, tab, LF, VT, FF, CR). -/
def isWsChar (c : Char) : Bool :=
  c.toNat = 32 || (9 ≤ c.toNat && c.toNat ≤ 13)

/-- ASCII `toLowerCase` on a single character, as JS applies to these names. -/
def toLowerChar (c : Char) : Char :=
  if 65 ≤ c.toNat ∧ c.toNat ≤ 90 then Char.ofNat (c.toNat + 32) else c

/-- `.replace(/[^a-z0-9\s]/g, '')`: keep only lower letters, digits, whitespace. -/
def stripSpecial (l : List Char) : List Char :=
  l.filter (fun c => isLowerAlphaNum c || isWsChar c)

/-- `.replace(/\s+/g, '_')`: each maximal whitespace run becomes one underscore.
The flag records whether the previous character was part of a whitespace run. -/
def wsAux : Bool → List Char → List Char
  | _, [] => []
  | prev, c :: cs =>
    if isWsChar c then
      (if prev then wsAux true cs else '_' :: wsAux true cs)
    else c :: wsAux false cs

def wsToUnderscore (l : List Char) : List Char := wsAux false l

/-- `.replace(/^_+|_+$/g, '')`: drop leading and trailing underscores. -/
def trimUnderscores (l : List Char) : List Char :=
  ((l.dropWhile (fun c => c == '_')).reverse.dropWhile (fun c => c == '_')).reverse

/-- `.replace(/_+/g, '_')`: each maximal underscore run becomes one underscore. -/
def collapseAux : Bool → List Char → List Char
  | _, [] => []
  | prev, c :: cs =>
    if c == '_' then
      (if prev then collapseAux true cs else '_' :: collapseAux true cs)
    else c :: collapseAux false cs

def collapseUnderscores (l : List Char) : List Char := collapseAux false l

/-- `createFieldName` (EditEmployeeDialog.tsx lines 45-52): lower-case, strip
characters outside `[a-z0-9\s]`, whitespace runs to `_`, trim edge
underscores, collapse underscore runs. -/
def createFieldName (s : String) : String :=
  ⟨collapseUnderscores (trimUnderscores (wsToUnderscore
      (stripSpecial (s.data.map toLowerChar))))⟩

/-- Erase every underscore of a string (used to describe what a second
application of `createFieldName` does to a first application's output). -/
def removeUnderscores (s : String) : String :=
  ⟨s.data.filter (fun c => !(c == '_'))⟩

/-! ## CanonicalOrderIndex and CriteriaCodeAssigner -/

/-- `CANONICAL_CRITERIA_ORDER` (identical constant in EmployeeForm,
EditEmployeeDialog.tsx and CriteriaTable.tsx). -/
def CANONICAL_CRITERIA_ORDER : List String :=
  [ "Kualitas Kerja", "Tanggung Jawab", "Kuantitas Kerja", "Pemahaman Tugas",
    "Inisiatif", "Kerjasama",
    "Jumlah Hari Alpa", "Jumlah Keterlambatan", "Jumlah Hari Izin",
    "Jumlah Hari Sakit", "Pulang Cepat",
    "Prestasi", "Surat Peringatan" ]

/-- JS `Array.prototype.indexOf`: zero-based position, `-1` when absent. -/
def indexOfJS (l : List String) (x : String) : Int :=
  match l.findIdx? (fun y => y == x) with
  | some i => (i : Int)
  | none => -1

/-- `getCriteriaCode` (CriteriaTable.tsx lines 106-109 and the identical copies):
position in the canonical order as a `C<n>` code, `C?` when absent. -/
def getCriteriaCode (criteriaName : String) : String :=
  let index := indexOfJS CANONICAL_CRITERIA_ORDER criteriaName
  if index != -1 then "C" ++ toString (index + 1) else "C?"

/-! ## Lemmas about `createFieldName` -/

/-- Characters that can occur in a `createFieldName` output. -/
def goodChar (c : Char) : Bool := isLowerAlphaNum c || c == '_'

theorem mem_wsAux {c : Char} : ∀ (l : List Char) (flag : Bool), c ∈ wsAux flag l →
    c = '_' ∨ (c ∈ l ∧ isWsChar c = false) := by
  intro l
  induction l with
  | nil => intro flag h; simp [wsAux] at h
  | cons d ds ih =>
    intro flag h
    simp only [wsAux] at h
    by_cases hd : isWsChar d
    · by_cases hf : flag
      · simp [hd, hf] at h
        rcases ih true h with h' | h'
        · exact Or.inl h'
        · exact Or.inr ⟨List.mem_cons_of_mem _ h'.1, h'.2⟩
      · simp [hd, hf] at h
        rcases h with h | h
        · exact Or.inl h
        · rcases ih true h with h' | h'
          · exact Or.inl h'
          · exact Or.inr ⟨List.mem_cons_of_mem _ h'.1, h'.2⟩
    · simp [hd] at h
      rcases h with h | h
      · subst h
        exact Or.inr ⟨List.mem_cons_self _ _, by simpa using hd⟩
      · rcases ih false h with h' | h'
        · exact Or.inl h'
        · exact Or.inr ⟨List.mem_cons_of_mem _ h'.1, h'.2⟩

theorem mem_trimUnderscores {l : List Char} {c : Char} (h : c ∈ trimUnderscores l) :
    c ∈ l := by
  simp only [trimUnderscores, List.mem_reverse] at h
  have h1 := (List.dropWhile_sublist (fun c => c == '_')).mem h
  simp only [List.mem_reverse] at h1
  exact (List.dropWhile_sublist (fun c => c == '_')).mem h1

theorem mem_collapseAux {c : Char} : ∀ (l : List Char) (flag : Bool),
    c ∈ collapseAux flag l → c = '_' ∨ c ∈ l := by
  intro l
  induction l with
  | nil => intro flag h; simp [collapseAux] at h
  | cons d ds ih =>
    intro flag h
    simp only [collapseAux] at h
    by_cases hd : d == '_'
    · by_cases hf : flag
      · simp [hd, hf] at h
        rcases ih true h with h' | h'
        · exact Or.inl h'
        · exact Or.inr (List.mem_cons_of_mem _ h')
      · simp [hd, hf] at h
        rcases h with h | h
        · exact Or.inl h
        · rcases ih true h with h' | h'
          · exact Or.inl h'
          · exact Or.inr (List.mem_cons_of_mem _ h')
    · simp [hd] at h
      rcases h with h | h
      · exact Or.inr (by simp [h])
      · rcases ih false h with h' | h'
        · exact Or.inl h'
        · exact Or.inr (List.mem_cons_of_mem _ h')

/-- Every character of a `createFieldName` output is a lower-case letter, a
digit, or an underscore. -/
theorem goodChar_createFieldName (s : String) :
    ∀ c ∈ (createFieldName s).data, goodChar c = true := by
  intro c hc
  simp only [createFieldName] at hc
  rcases mem_collapseAux _ _ hc with h | h
  · simp [goodChar, h]
  · have h2 := mem_trimUnderscores h
    rcases mem_wsAux _ _ h2 with h3 | h3
    · simp [goodChar, h3]
    · have h4 := h3.1
      simp only [stripSpecial, List.mem_filter] at h4
      have h5 := h4.2
      simp only [Bool.or_eq_true] at h5
      rcases h5 with h5 | h5
      · simp [goodChar, h5]
      · rw [h5] at h3
        exact absurd h3.2 (by simp)

theorem toLowerChar_good {c : Char} (h : goodChar c = true) : toLowerChar c = c := by
  simp only [goodChar, Bool.or_eq_true, beq_iff_eq] at h
  rcases h with h | h
  · simp only [isLowerAlphaNum, Bool.or_eq_true, Bool.and_eq_true,
      decide_eq_true_eq] at h
    simp only [toLowerChar, ite_eq_right_iff]
    intro hc
    omega
  · subst h
    decide

theorem mapIdOn {l : List α} {f : α → α} (h : ∀ a ∈ l, f a = a) : l.map f = l := by
  induction l with
  | nil => rfl
  | cons a as ih =>
    simp only [List.map_cons, h a (List.mem_cons_self _ _),
      ih (fun b hb => h b (List.mem_cons_of_mem _ hb))]

theorem filterTrueOn {l : List α} {p : α → Bool} (h : ∀ a ∈ l, p a = true) :
    l.filter p = l := by
  induction l with
  | nil => rfl
  | cons a as ih =>
    simp [List.filter_cons, h a (List.mem_cons_self _ _),
      ih (fun b hb => h b (List.mem_cons_of_mem _ hb))]

theorem wsAux_noop {l : List Char} (h : ∀ c ∈ l, isWsChar c = false) (flag : Bool) :
    wsAux flag l = l := by
  induction l generalizing flag with
  | nil => rfl
  | cons c cs ih =>
    simp [wsAux, h c (List.mem_cons_self _ _),
      ih (fun d hd => h d (List.mem_cons_of_mem _ hd))]

theorem dropWhileNoop {l : List α} {p : α → Bool} (h : ∀ a ∈ l, p a = false) :
    l.dropWhile p = l := by
  cases l with
  | nil => rfl
  | cons a as => simp [List.dropWhile_cons, h a (List.mem_cons_self _ _)]

theorem trimUnderscores_noop {l : List Char} (h : ∀ c ∈ l, (c == '_') = false) :
    trimUnderscores l = l := by
  simp only [trimUnderscores]
  rw [dropWhileNoop h, dropWhileNoop (by simpa using h), List.reverse_reverse]

theorem collapseAux_noop {l : List Char} (h : ∀ c ∈ l, (c == '_') = false)
    (flag : Bool) : collapseAux flag l = l := by
  induction l generalizing flag with
  | nil => rfl
  | cons c cs ih =>
    simp [collapseAux, h c (List.mem_cons_self _ _),
      ih (fun d hd => h d (List.mem_cons_of_mem _ hd))]

theorem string_mk_data (s : String) : (⟨s.data⟩ : String) = s := rfl

theorem wsToUnderscore_noop {l : List Char} (h : ∀ c ∈ l, isWsChar c = false) :
    wsToUnderscore l = l := wsAux_noop h false

theorem collapseUnderscores_noop {l : List Char} (h : ∀ c ∈ l, (c == '_') = false) :
    collapseUnderscores l = l := collapseAux_noop h false

/-- Claim C4 counterexample: `createFieldName` is not idempotent, and the two
sides of the claimed equation differ: normalizing `"Jumlah  Hari  Alpa!"`
gives `"jumlah_hari_alpa"`, but normalizing that output again strips its
underscores (the regex class `[^a-z0-9\s]` removes `_`), giving
`"jumlahharialpa"`. -/
theorem C4_normalize_not_idempotent_cex :
    createFieldName "Jumlah  Hari  Alpa!" = "jumlah_hari_alpa" ∧
    createFieldName "jumlah_hari_alpa" = "jumlahharialpa" ∧
    createFieldName (createFieldName "Jumlah  Hari  Alpa!") ≠
      createFieldName "Jumlah  Hari  Alpa!" ∧
    createFieldName "Jumlah  Hari  Alpa!" ≠ createFieldName "jumlah_hari_alpa" := by
  refine ⟨by decide, by decide, by decide, by decide⟩

/-- Claim C4 (amended): a second application of `createFieldName` removes every
underscore of the first application's output (so the function is idempotent
exactly on inputs whose normalized form is underscore-free). -/
theorem C4_normalize_amended (s : String) :
    createFieldName (createFieldName s) = removeUnderscores (createFieldName s) ∧
    ((∀ c ∈ (createFieldName s).data, (c == '_') = false) →
      createFieldName (createFieldName s) = createFieldName s) := by
  have hgood := goodChar_createFieldName s
  have hmap : (createFieldName s).data.map toLowerChar = (createFieldName s).data :=
    mapIdOn (fun c hc => toLowerChar_good (hgood c hc))
  have hfilter : stripSpecial (createFieldName s).data =
      (createFieldName s).data.filter (fun c => !(c == '_')) := by
    apply List.filter_congr
    intro c hc
    have h := hgood c hc
    simp only [goodChar, Bool.or_eq_true, beq_iff_eq] at h
    rcases h with h | h
    · have h1 : (c == '_') = false := by
        simp only [beq_eq_false_iff_ne, ne_eq]
        intro hcc
        rw [hcc] at h
        simp [isLowerAlphaNum] at h
      simp only [isLowerAlphaNum, isWsChar] at h ⊢
      simp only [Bool.or_eq_true, Bool.and_eq_true, decide_eq_true_eq] at h
      simp only [h1, Bool.not_false, Bool.or_eq_true, Bool.and_eq_true,
        decide_eq_true_eq]
      omega
    · subst h
      decide
  have halnum : ∀ c ∈ (createFieldName s).data.filter (fun c => !(c == '_')),
      isLowerAlphaNum c = true := by
    intro c hc
    simp only [List.mem_filter, Bool.not_eq_true'] at hc
    have h := hgood c hc.1
    simp only [goodChar, Bool.or_eq_true] at h
    rcases h with h | h
    · exact h
    · rw [hc.2] at h
      exact absurd h (by simp)
  have hnws : ∀ c ∈ (createFieldName s).data.filter (fun c => !(c == '_')),
      isWsChar c = false := by
    intro c hc
    have h := halnum c hc
    simp only [isLowerAlphaNum, Bool.or_eq_true, Bool.and_eq_true,
      decide_eq_true_eq] at h
    simp only [isWsChar, Bool.or_eq_false_iff, Bool.and_eq_false_iff,
      decide_eq_false_iff_not]
    omega
  have hnus : ∀ c ∈ (createFieldName s).data.filter (fun c => !(c == '_')),
      (c == '_') = false := by
    intro c hc
    simp only [List.mem_filter, Bool.not_eq_true'] at hc
    exact hc.2
  have hmain : createFieldName (createFieldName s) =
      removeUnderscores (createFieldName s) := by
    show (⟨collapseUnderscores (trimUnderscores (wsToUnderscore
        (stripSpecial ((createFieldName s).data.map toLowerChar))))⟩ : String) =
      removeUnderscores (createFieldName s)
    rw [hmap, hfilter, wsToUnderscore_noop hnws, trimUnderscores_noop hnus,
      collapseUnderscores_noop hnus]
    rfl
  refine ⟨hmain, fun hfree => ?_⟩
  rw [hmain]
  have : (createFieldName s).data.filter (fun c => !(c == '_')) =
      (createFieldName s).data :=
    filterTrueOn (fun c hc => by simp [hfree c hc])
  simp only [removeUnderscores, this, string_mk_data]

/-- Claim C4 witness: concrete instance of the amended statement. -/
theorem C4_normalize_amended_witness :
    createFieldName (createFieldName "abc") = createFieldName "abc" :=
  (C4_normalize_amended "abc").2 (by decide)

/-! ## Claim C6: criteria codes -/

/-- Claim C6: a name at zero-based canonical position `i` gets code `C<i+1>`;
a name absent from the canonical list gets `C?`; `getCriteriaCode` is a pure
function (it is a Lean function of its argument alone). -/
theorem C6_codeOf_spec :
    (∀ i (h : i < CANONICAL_CRITERIA_ORDER.length),
      getCriteriaCode (CANONICAL_CRITERIA_ORDER.get ⟨i, h⟩) = "C" ++ toString (i + 1)) ∧
    (∀ name, name ∉ CANONICAL_CRITERIA_ORDER → getCriteriaCode name = "C?") := by
  constructor
  · decide
  · intro name hname
    have hidx : CANONICAL_CRITERIA_ORDER.findIdx? (fun y => y == name) = none := by
      rw [List.findIdx?_eq_none_iff]
      intro y hy
      simp only [beq_eq_false_iff_ne, ne_eq]
      intro h
      exact hname (h ▸ hy)
    simp [getCriteriaCode, indexOfJS, hidx]

/-- Claim C6 witness. -/
theorem C6_codeOf_spec_witness :
    getCriteriaCode (CANONICAL_CRITERIA_ORDER.get ⟨0, by decide⟩) =
      "C" ++ toString (0 + 1) ∧
    getCriteriaCode "Zzz" = "C?" :=
  ⟨C6_codeOf_spec.1 0 (by decide), C6_codeOf_spec.2 "Zzz" (by decide)⟩

/-! ## Criterion records and the CriteriaSorter -/

/-- A row of the `criteria` table (`Criteria` in `types/database`). -/
structure Criteria where
  id : String
  name : String
  type : String
  category : String
  weight : Int
  scale : String
deriving DecidableEq, Repr

/-- JS `a.includes(b)` on strings: substring containment. -/
def strIncludes (s pat : String) : Bool := decide (pat.data <:+: s.data)

/-- JS `String.prototype.localeCompare`, modelled as the three-way comparison
in the lexicographic order on strings. -/
def localeCompare (a b : String) : Int :=
  if a < b then -1 else if b < a then 1 else 0

/-- The sort comparator of `fetchCriteria` (CriteriaTable.tsx lines 55-65 and
the identical copies in EmployeeForm and EditEmployeeDialog): canonical index
ascending; if both names are missing from the canonical order compare names;
a missing name sorts after a present one. -/
def criteriaCompare (a b : Criteria) : Int :=
  let indexA := indexOfJS CANONICAL_CRITERIA_ORDER a.name
  let indexB := indexOfJS CANONICAL_CRITERIA_ORDER b.name
  if indexA = -1 ∧ indexB = -1 then localeCompare a.name b.name
  else if indexA = -1 then 1
  else if indexB = -1 then -1
  else indexA - indexB

/-- The non-strict order induced by the comparator. -/
def criteriaLe (a b : Criteria) : Prop := criteriaCompare a b ≤ 0

instance (a b : Criteria) : Decidable (criteriaLe a b) := by
  unfold criteriaLe; infer_instance

def insertSorted (x : Criteria) : List Criteria → List Criteria
  | [] => [x]
  | y :: ys => if criteriaLe x y then x :: y :: ys else y :: insertSorted x ys

/-- `criteriaData.sort(comparator)`, modelled as insertion sort with the
comparator's non-strict order: a sorted permutation of the input. -/
def sortCriteria : List Criteria → List Criteria
  | [] => []
  | x :: xs => insertSorted x (sortCriteria xs)

/-- A criterion whose name occurs in the canonical reference list. -/
def knownCriteria (a : Criteria) : Prop := a.name ∈ CANONICAL_CRITERIA_ORDER

instance (a : Criteria) : Decidable (knownCriteria a) := by
  unfold knownCriteria; infer_instance

theorem indexOfJS_eq_neg_one_iff (l : List String) (x : String) :
    indexOfJS l x = -1 ↔ x ∉ l := by
  unfold indexOfJS
  cases h : l.findIdx? (fun y => y == x) with
  | none =>
    simp only [List.findIdx?_eq_none_iff] at h
    simp only [eq_self_iff_true, true_iff]
    intro hx
    have := h x hx
    simp at this
  | some i =>
    rw [List.findIdx?_eq_some_iff_getElem] at h
    obtain ⟨hlt, hp, -⟩ := h
    have hmem : x ∈ l := by
      have hm := List.getElem_mem hlt
      rw [beq_iff_eq] at hp
      rwa [hp] at hm
    show (i : Int) = -1 ↔ x ∉ l
    constructor
    · intro hc; omega
    · intro hc; exact absurd hmem hc

theorem indexOfJS_cases (l : List String) (x : String) :
    indexOfJS l x = -1 ∨ 0 ≤ indexOfJS l x := by
  unfold indexOfJS
  cases h : l.findIdx? (fun y => y == x) with
  | none => left; rfl
  | some i =>
    right
    show (0 : Int) ≤ (i : Int)
    omega

theorem locale_le_iff (s t : String) : localeCompare s t ≤ 0 ↔ s ≤ t := by
  unfold localeCompare
  split_ifs with h1 h2
  · simp [le_of_lt h1]
  · constructor
    · intro h; omega
    · intro h; exact absurd h (not_le.mpr h2)
  · have hst : s = t := le_antisymm (le_of_not_lt h2) (le_of_not_lt h1)
    simp [hst]

theorem criteriaCompare_known_known {a b : Criteria} (ha : knownCriteria a)
    (hb : knownCriteria b) :
    criteriaCompare a b = indexOfJS CANONICAL_CRITERIA_ORDER a.name -
      indexOfJS CANONICAL_CRITERIA_ORDER b.name := by
  have ha' : indexOfJS CANONICAL_CRITERIA_ORDER a.name ≠ -1 := by
    rw [ne_eq, indexOfJS_eq_neg_one_iff]; simpa [knownCriteria] using ha
  have hb' : indexOfJS CANONICAL_CRITERIA_ORDER b.name ≠ -1 := by
    rw [ne_eq, indexOfJS_eq_neg_one_iff]; simpa [knownCriteria] using hb
  simp [criteriaCompare, ha', hb']

theorem criteriaCompare_unknown_unknown {a b : Criteria} (ha : ¬knownCriteria a)
    (hb : ¬knownCriteria b) :
    criteriaCompare a b = localeCompare a.name b.name := by
  have ha' : indexOfJS CANONICAL_CRITERIA_ORDER a.name = -1 := by
    rw [indexOfJS_eq_neg_one_iff]; simpa [knownCriteria] using ha
  have hb' : indexOfJS CANONICAL_CRITERIA_ORDER b.name = -1 := by
    rw [indexOfJS_eq_neg_one_iff]; simpa [knownCriteria] using hb
  simp [criteriaCompare, ha', hb']

theorem criteriaCompare_known_unknown {a b : Criteria} (ha : knownCriteria a)
    (hb : ¬knownCriteria b) : criteriaCompare a b = -1 := by
  have ha' : indexOfJS CANONICAL_CRITERIA_ORDER a.name ≠ -1 := by
    rw [ne_eq, indexOfJS_eq_neg_one_iff]; simpa [knownCriteria] using ha
  have hb' : indexOfJS CANONICAL_CRITERIA_ORDER b.name = -1 := by
    rw [indexOfJS_eq_neg_one_iff]; simpa [knownCriteria] using hb
  simp [criteriaCompare, ha', hb']

theorem criteriaCompare_unknown_known {a b : Criteria} (ha : ¬knownCriteria a)
    (hb : knownCriteria b) : criteriaCompare a b = 1 := by
  have ha' : indexOfJS CANONICAL_CRITERIA_ORDER a.name = -1 := by
    rw [indexOfJS_eq_neg_one_iff]; simpa [knownCriteria] using ha
  have hb' : indexOfJS CANONICAL_CRITERIA_ORDER b.name ≠ -1 := by
    rw [ne_eq, indexOfJS_eq_neg_one_iff]; simpa [knownCriteria] using hb
  simp [criteriaCompare, ha', hb']

theorem criteriaLe_trans {a b c : Criteria} (hab : criteriaLe a b)
    (hbc : criteriaLe b c) : criteriaLe a c := by
  unfold criteriaLe at *
  by_cases ha : knownCriteria a <;> by_cases hb : knownCriteria b <;>
    by_cases hc : knownCriteria c
  · rw [criteriaCompare_known_known ha hb] at hab
    rw [criteriaCompare_known_known hb hc] at hbc
    rw [criteriaCompare_known_known ha hc]
    omega
  · rw [criteriaCompare_known_unknown ha hc]; omega
  · rw [criteriaCompare_unknown_known hb hc] at hbc; omega
  · rw [criteriaCompare_known_unknown ha hc]; omega
  · rw [criteriaCompare_unknown_known ha hb] at hab; omega
  · rw [criteriaCompare_unknown_known ha hb] at hab; omega
  · rw [criteriaCompare_unknown_known hb hc] at hbc
    omega
  · rw [criteriaCompare_unknown_unknown ha hb] at hab
    rw [criteriaCompare_unknown_unknown hb hc] at hbc
    rw [criteriaCompare_unknown_unknown ha hc]
    rw [locale_le_iff] at hab hbc ⊢
    exact le_trans hab hbc

theorem criteriaLe_total (a b : Criteria) : criteriaLe a b ∨ criteriaLe b a := by
  unfold criteriaLe
  by_cases ha : knownCriteria a <;> by_cases hb : knownCriteria b
  · rw [criteriaCompare_known_known ha hb, criteriaCompare_known_known hb ha]
    omega
  · rw [criteriaCompare_known_unknown ha hb]; omega
  · rw [criteriaCompare_known_unknown hb ha]; omega
  · rw [criteriaCompare_unknown_unknown ha hb, criteriaCompare_unknown_unknown hb ha]
    rw [locale_le_iff, locale_le_iff]
    exact le_total a.name b.name

theorem perm_insertSorted (x : Criteria) (l : List Criteria) :
    (insertSorted x l).Perm (x :: l) := by
  induction l with
  | nil => exact List.Perm.refl _
  | cons y ys ih =>
    simp only [insertSorted]
    by_cases h : criteriaLe x y
    · rw [if_pos h]
    · rw [if_neg h]
      exact (ih.cons y).trans (List.Perm.swap x y ys)

theorem mem_insertSorted {b x : Criteria} {l : List Criteria} :
    b ∈ insertSorted x l ↔ b = x ∨ b ∈ l := by
  rw [(perm_insertSorted x l).mem_iff, List.mem_cons]

theorem pairwise_insertSorted {x : Criteria} {l : List Criteria}
    (hl : l.Pairwise criteriaLe) : (insertSorted x l).Pairwise criteriaLe := by
  induction l with
  | nil => simp [insertSorted]
  | cons y ys ih =>
    rcases List.pairwise_cons.mp hl with ⟨hy, hys⟩
    simp only [insertSorted]
    by_cases hxy : criteriaLe x y
    · rw [if_pos hxy]
      refine List.pairwise_cons.mpr ⟨?_, hl⟩
      intro b hb
      rcases List.mem_cons.mp hb with rfl | hb
      · exact hxy
      · exact criteriaLe_trans hxy (hy b hb)
    · rw [if_neg hxy]
      refine List.pairwise_cons.mpr ⟨?_, ih hys⟩
      intro b hb
      rcases mem_insertSorted.mp hb with rfl | hb
      · rcases criteriaLe_total y b with h | h
        · exact h
        · exact absurd h hxy
      · exact hy b hb

theorem perm_sortCriteria (l : List Criteria) : (sortCriteria l).Perm l := by
  induction l with
  | nil => exact List.Perm.refl _
  | cons x xs ih => exact (perm_insertSorted x (sortCriteria xs)).trans (ih.cons x)

theorem pairwise_sortCriteria (l : List Criteria) :
    (sortCriteria l).Pairwise criteriaLe := by
  induction l with
  | nil => simp [sortCriteria]
  | cons x xs ih => exact pairwise_insertSorted ih

/-- Claim C5: the sorter returns a permutation of its input sorted by the
comparator's order; that order is transitive and total; it compares two
canonical names by index, two non-canonical names lexicographically, and puts
every canonical name strictly before every non-canonical one. -/
theorem C5_sorter_spec (l : List Criteria) :
    (sortCriteria l).Perm l ∧
    (sortCriteria l).Pairwise criteriaLe ∧
    (∀ a b c : Criteria, criteriaLe a b → criteriaLe b c → criteriaLe a c) ∧
    (∀ a b : Criteria, criteriaLe a b ∨ criteriaLe b a) ∧
    (∀ a b : Criteria, knownCriteria a → knownCriteria b →
      (criteriaLe a b ↔ indexOfJS CANONICAL_CRITERIA_ORDER a.name ≤
        indexOfJS CANONICAL_CRITERIA_ORDER b.name)) ∧
    (∀ a b : Criteria, ¬knownCriteria a → ¬knownCriteria b →
      (criteriaLe a b ↔ a.name ≤ b.name)) ∧
    (∀ a b : Criteria, knownCriteria a → ¬knownCriteria b →
      criteriaLe a b ∧ ¬criteriaLe b a) := by
  refine ⟨perm_sortCriteria l, pairwise_sortCriteria l,
    fun a b c => criteriaLe_trans, criteriaLe_total, ?_, ?_, ?_⟩
  · intro a b ha hb
    unfold criteriaLe
    rw [criteriaCompare_known_known ha hb]
    omega
  · intro a b ha hb
    unfold criteriaLe
    rw [criteriaCompare_unknown_unknown ha hb]
    exact locale_le_iff a.name b.name
  · intro a b ha hb
    unfold criteriaLe
    rw [criteriaCompare_known_unknown ha hb, criteriaCompare_unknown_known hb ha]
    omega

/-- Claim C5 witness: a canonical criterion precedes a non-canonical one in
the comparator order, instantiated concretely. -/
theorem C5_sorter_spec_witness :
    knownCriteria ⟨"c1", "Prestasi", "Benefit", "Faktor Tambahan", 5, "0-1"⟩ ∧
    ¬knownCriteria ⟨"c2", "Absensi Baru", "Cost", "Kedisiplinan", 5, "0-10"⟩ ∧
    (criteriaLe ⟨"c1", "Prestasi", "Benefit", "Faktor Tambahan", 5, "0-1"⟩
        ⟨"c2", "Absensi Baru", "Cost", "Kedisiplinan", 5, "0-10"⟩ ∧
      ¬criteriaLe ⟨"c2", "Absensi Baru", "Cost", "Kedisiplinan", 5, "0-10"⟩
        ⟨"c1", "Prestasi", "Benefit", "Faktor Tambahan", 5, "0-1"⟩) :=
  ⟨by decide, by decide,
    (C5_sorter_spec []).2.2.2.2.2.2 _ _ (by decide) (by decide)⟩

/-! ## Default-value policy and the Employee record -/

/-- Form-initialization default of `fetchCriteria` (EmployeeForm lines 90-103):
Benefit with a scale containing `1-5` defaults to 1, Benefit with a binary
scale (`0-1` or `0/1`) to 0, any other Benefit scale to 1, anything else
(Cost) to 0. -/
def defaultScore (c : Criteria) : Int :=
  if c.type == "Benefit" then
    if strIncludes c.scale "1-5" then 1
    else if strIncludes c.scale "0-1" || strIncludes c.scale "0/1" then 0
    else 1
  else 0

/-- The `Employee` record shape of `pages/Index` as used by both components:
thirteen fixed numeric slots plus the dynamic properties that the source adds
with `(employee as any)[name] = value`. -/
structure Employee where
  id : String
  name : String
  kualitasKerja : Int
  tanggungJawab : Int
  kuantitasKerja : Int
  pemahamanTugas : Int
  inisiatif : Int
  kerjasama : Int
  hariAlpa : Int
  keterlambatan : Int
  hariIzin : Int
  hariSakit : Int
  pulangCepat : Int
  prestasi : Int
  suratPeringatan : Int
  extra : List (String × Int)
deriving DecidableEq, Repr

/-- JS keyed read: models both `Map.get` and a property read on a plain
object (string keys). -/
def extraGet {α : Type} (m : List (String × α)) (k : String) : Option α :=
  (m.find? (fun p => p.1 == k)).map (fun p => p.2)

/-- JS keyed write: models both `Map.set` and a property assignment on a plain
object — overwrite an existing key in place, append a new key at the end. -/
def extraSet {α : Type} (m : List (String × α)) (k : String) (v : α) :
    List (String × α) :=
  if m.any (fun p => p.1 == k) then
    m.map (fun p => if p.1 == k then (k, v) else p)
  else m ++ [(k, v)]

/-- The freshly inserted record of `convertEvaluationScoresToEmployees`
(EmployeeForm lines 181-198): all core Benefit slots at 1, all other slots
at 0. -/
def initialEmployee (employeeId employeeName : String) : Employee :=
  { id := employeeId, name := employeeName,
    kualitasKerja := 1, tanggungJawab := 1, kuantitasKerja := 1,
    pemahamanTugas := 1, inisiatif := 1, kerjasama := 1,
    hariAlpa := 0, keterlambatan := 0, hariIzin := 0, hariSakit := 0,
    pulangCepat := 0, prestasi := 0, suratPeringatan := 0, extra := [] }

/-- The `switch (score.criteria.name)` of `convertEvaluationScoresToEmployees`
(EmployeeForm lines 204-248): the thirteen canonical names write their named
slot, any other name becomes a dynamic property keyed by the raw name. -/
def applyScore (employee : Employee) (criteriaName : String) (v : Int) : Employee :=
  if criteriaName = "Kualitas Kerja" then { employee with kualitasKerja := v }
  else if criteriaName = "Tanggung Jawab" then { employee with tanggungJawab := v }
  else if criteriaName = "Kuantitas Kerja" then { employee with kuantitasKerja := v }
  else if criteriaName = "Pemahaman Tugas" then { employee with pemahamanTugas := v }
  else if criteriaName = "Inisiatif" then { employee with inisiatif := v }
  else if criteriaName = "Kerjasama" then { employee with kerjasama := v }
  else if criteriaName = "Jumlah Hari Alpa" then { employee with hariAlpa := v }
  else if criteriaName = "Jumlah Keterlambatan" then { employee with keterlambatan := v }
  else if criteriaName = "Jumlah Hari Izin" then { employee with hariIzin := v }
  else if criteriaName = "Jumlah Hari Sakit" then { employee with hariSakit := v }
  else if criteriaName = "Pulang Cepat" then { employee with pulangCepat := v }
  else if criteriaName = "Prestasi" then { employee with prestasi := v }
  else if criteriaName = "Surat Peringatan" then { employee with suratPeringatan := v }
  else { employee with extra := extraSet employee.extra criteriaName v }

/-- Reading the slot a criterion name denotes on an `Employee`: the named
field for the thirteen canonical names, and the dynamic read
`(employee as any)[name] || 0` (EmployeeForm line 649) otherwise. -/
def getSlot (employee : Employee) (criteriaName : String) : Int :=
  if criteriaName = "Kualitas Kerja" then employee.kualitasKerja
  else if criteriaName = "Tanggung Jawab" then employee.tanggungJawab
  else if criteriaName = "Kuantitas Kerja" then employee.kuantitasKerja
  else if criteriaName = "Pemahaman Tugas" then employee.pemahamanTugas
  else if criteriaName = "Inisiatif" then employee.inisiatif
  else if criteriaName = "Kerjasama" then employee.kerjasama
  else if criteriaName = "Jumlah Hari Alpa" then employee.hariAlpa
  else if criteriaName = "Jumlah Keterlambatan" then employee.keterlambatan
  else if criteriaName = "Jumlah Hari Izin" then employee.hariIzin
  else if criteriaName = "Jumlah Hari Sakit" then employee.hariSakit
  else if criteriaName = "Pulang Cepat" then employee.pulangCepat
  else if criteriaName = "Prestasi" then employee.prestasi
  else if criteriaName = "Surat Peringatan" then employee.suratPeringatan
  else jsOr (extraGet employee.extra criteriaName) 0

theorem jsOr_some (v : Int) : jsOr (some v) 0 = v := by
  show (if v = 0 then 0 else v) = v
  split_ifs with h
  · omega
  · rfl

theorem find?_map_update_self {α : Type} (k : String) (v : α) :
    ∀ m : List (String × α), m.any (fun p => p.1 == k) = true →
      List.find? (fun p => p.1 == k)
        (m.map (fun p => if p.1 == k then (k, v) else p)) = some (k, v) := by
  intro m
  induction m with
  | nil => intro h; simp at h
  | cons p ps ih =>
    intro h
    by_cases hp : p.1 == k
    · simp only [List.map_cons, if_pos hp]
      exact List.find?_cons_of_pos _ (by simp)
    · simp only [List.any_cons, Bool.or_eq_true] at h
      rcases h with h | h
      · exact absurd h hp
      · simp only [List.map_cons, if_neg hp]
        rw [List.find?_cons_of_neg _ (by simpa using hp)]
        exact ih h

theorem find?_map_update_other {α : Type} (k k' : String) (v : α) (hk : k' ≠ k) :
    ∀ m : List (String × α),
      List.find? (fun p => p.1 == k')
        (m.map (fun p => if p.1 == k then (k, v) else p)) =
      List.find? (fun p => p.1 == k') m := by
  intro m
  induction m with
  | nil => rfl
  | cons p ps ih =>
    by_cases hp : p.1 == k
    · have hpk : p.1 = k := by simpa using hp
      simp only [List.map_cons, if_pos hp]
      rw [List.find?_cons_of_neg _ (by simp; exact fun hc => hk hc.symm),
        List.find?_cons_of_neg _ (by simp [hpk]; exact fun hc => hk hc.symm)]
      exact ih
    · simp only [List.map_cons, if_neg hp]
      by_cases hp' : p.1 == k'
      · simp [hp']
      · rw [List.find?_cons_of_neg _ (by simpa using hp'),
          List.find?_cons_of_neg _ (by simpa using hp')]
        exact ih

theorem extraGet_extraSet_self {α : Type} (m : List (String × α)) (k : String) (v : α) :
    extraGet (extraSet m k v) k = some v := by
  unfold extraSet
  split_ifs with h
  · unfold extraGet
    rw [find?_map_update_self k v m h]
    rfl
  · have hnone : m.find? (fun p => p.1 == k) = none := by
      rw [List.find?_eq_none]
      intro x hx hpx
      have : m.any (fun p => p.1 == k) = true := List.any_of_mem hx hpx
      simp [this] at h
    simp [extraGet, List.find?_append, hnone, List.find?]

theorem extraGet_extraSet_other {α : Type} (m : List (String × α)) (k k' : String) (v : α)
    (h : k' ≠ k) : extraGet (extraSet m k v) k' = extraGet m k' := by
  unfold extraSet
  split_ifs with hany
  · simp only [extraGet, find?_map_update_other k k' v h m]
  · simp only [extraGet, List.find?_append]
    cases hf : m.find? (fun p => p.1 == k') with
    | some p => simp
    | none =>
      have : (((k, v)).1 == k') = false := by
        simp only [beq_eq_false_iff_ne, ne_eq]
        exact fun hc => h hc.symm
      simp [List.find?, this]

theorem applyScore_extra_unknown (e : Employee) (n : String) (v : Int)
    (h : n ∉ CANONICAL_CRITERIA_ORDER) :
    applyScore e n v = { e with extra := extraSet e.extra n v } := by
  have g1 : n ≠ "Kualitas Kerja" := fun hc => h (by rw [hc]; decide)
  have g2 : n ≠ "Tanggung Jawab" := fun hc => h (by rw [hc]; decide)
  have g3 : n ≠ "Kuantitas Kerja" := fun hc => h (by rw [hc]; decide)
  have g4 : n ≠ "Pemahaman Tugas" := fun hc => h (by rw [hc]; decide)
  have g5 : n ≠ "Inisiatif" := fun hc => h (by rw [hc]; decide)
  have g6 : n ≠ "Kerjasama" := fun hc => h (by rw [hc]; decide)
  have g7 : n ≠ "Jumlah Hari Alpa" := fun hc => h (by rw [hc]; decide)
  have g8 : n ≠ "Jumlah Keterlambatan" := fun hc => h (by rw [hc]; decide)
  have g9 : n ≠ "Jumlah Hari Izin" := fun hc => h (by rw [hc]; decide)
  have g10 : n ≠ "Jumlah Hari Sakit" := fun hc => h (by rw [hc]; decide)
  have g11 : n ≠ "Pulang Cepat" := fun hc => h (by rw [hc]; decide)
  have g12 : n ≠ "Prestasi" := fun hc => h (by rw [hc]; decide)
  have g13 : n ≠ "Surat Peringatan" := fun hc => h (by rw [hc]; decide)
  unfold applyScore
  rw [if_neg g1, if_neg g2, if_neg g3, if_neg g4, if_neg g5, if_neg g6, if_neg g7, if_neg g8, if_neg g9, if_neg g10, if_neg g11, if_neg g12, if_neg g13]

theorem applyScore_extra_known (e : Employee) (n : String) (v : Int)
    (h : n ∈ CANONICAL_CRITERIA_ORDER) : (applyScore e n v).extra = e.extra := by
  simp only [CANONICAL_CRITERIA_ORDER, List.mem_cons, List.mem_singleton,
    List.not_mem_nil, or_false] at h
  rcases h with rfl | rfl | rfl | rfl | rfl | rfl | rfl | rfl | rfl | rfl | rfl | rfl | rfl <;> rfl

theorem applyScore_id (e : Employee) (n : String) (v : Int) :
    (applyScore e n v).id = e.id := by
  by_cases g1 : n = "Kualitas Kerja"
  · subst g1; rfl
  by_cases g2 : n = "Tanggung Jawab"
  · subst g2; rfl
  by_cases g3 : n = "Kuantitas Kerja"
  · subst g3; rfl
  by_cases g4 : n = "Pemahaman Tugas"
  · subst g4; rfl
  by_cases g5 : n = "Inisiatif"
  · subst g5; rfl
  by_cases g6 : n = "Kerjasama"
  · subst g6; rfl
  by_cases g7 : n = "Jumlah Hari Alpa"
  · subst g7; rfl
  by_cases g8 : n = "Jumlah Keterlambatan"
  · subst g8; rfl
  by_cases g9 : n = "Jumlah Hari Izin"
  · subst g9; rfl
  by_cases g10 : n = "Jumlah Hari Sakit"
  · subst g10; rfl
  by_cases g11 : n = "Pulang Cepat"
  · subst g11; rfl
  by_cases g12 : n = "Prestasi"
  · subst g12; rfl
  by_cases g13 : n = "Surat Peringatan"
  · subst g13; rfl
  rw [applyScore_extra_unknown e n v (by simp [CANONICAL_CRITERIA_ORDER, g1, g2, g3, g4, g5, g6, g7, g8, g9, g10, g11, g12, g13])]

theorem applyScore_name (e : Employee) (n : String) (v : Int) :
    (applyScore e n v).name = e.name := by
  by_cases g1 : n = "Kualitas Kerja"
  · subst g1; rfl
  by_cases g2 : n = "Tanggung Jawab"
  · subst g2; rfl
  by_cases g3 : n = "Kuantitas Kerja"
  · subst g3; rfl
  by_cases g4 : n = "Pemahaman Tugas"
  · subst g4; rfl
  by_cases g5 : n = "Inisiatif"
  · subst g5; rfl
  by_cases g6 : n = "Kerjasama"
  · subst g6; rfl
  by_cases g7 : n = "Jumlah Hari Alpa"
  · subst g7; rfl
  by_cases g8 : n = "Jumlah Keterlambatan"
  · subst g8; rfl
  by_cases g9 : n = "Jumlah Hari Izin"
  · subst g9; rfl
  by_cases g10 : n = "Jumlah Hari Sakit"
  · subst g10; rfl
  by_cases g11 : n = "Pulang Cepat"
  · subst g11; rfl
  by_cases g12 : n = "Prestasi"
  · subst g12; rfl
  by_cases g13 : n = "Surat Peringatan"
  · subst g13; rfl
  rw [applyScore_extra_unknown e n v (by simp [CANONICAL_CRITERIA_ORDER, g1, g2, g3, g4, g5, g6, g7, g8, g9, g10, g11, g12, g13])]

theorem applyScore_keep_kualitasKerja (e : Employee) (n : String) (v : Int)
    (h : n ≠ "Kualitas Kerja") :
    (applyScore e n v).kualitasKerja = e.kualitasKerja := by
  by_cases g2 : n = "Tanggung Jawab"
  · subst g2; rfl
  by_cases g3 : n = "Kuantitas Kerja"
  · subst g3; rfl
  by_cases g4 : n = "Pemahaman Tugas"
  · subst g4; rfl
  by_cases g5 : n = "Inisiatif"
  · subst g5; rfl
  by_cases g6 : n = "Kerjasama"
  · subst g6; rfl
  by_cases g7 : n = "Jumlah Hari Alpa"
  · subst g7; rfl
  by_cases g8 : n = "Jumlah Keterlambatan"
  · subst g8; rfl
  by_cases g9 : n = "Jumlah Hari Izin"
  · subst g9; rfl
  by_cases g10 : n = "Jumlah Hari Sakit"
  · subst g10; rfl
  by_cases g11 : n = "Pulang Cepat"
  · subst g11; rfl
  by_cases g12 : n = "Prestasi"
  · subst g12; rfl
  by_cases g13 : n = "Surat Peringatan"
  · subst g13; rfl
  rw [applyScore_extra_unknown e n v (by simp [CANONICAL_CRITERIA_ORDER, h, g2, g3, g4, g5, g6, g7, g8, g9, g10, g11, g12, g13])]

theorem applyScore_keep_tanggungJawab (e : Employee) (n : String) (v : Int)
    (h : n ≠ "Tanggung Jawab") :
    (applyScore e n v).tanggungJawab = e.tanggungJawab := by
  by_cases g1 : n = "Kualitas Kerja"
  · subst g1; rfl
  by_cases g3 : n = "Kuantitas Kerja"
  · subst g3; rfl
  by_cases g4 : n = "Pemahaman Tugas"
  · subst g4; rfl
  by_cases g5 : n = "Inisiatif"
  · subst g5; rfl
  by_cases g6 : n = "Kerjasama"
  · subst g6; rfl
  by_cases g7 : n = "Jumlah Hari Alpa"
  · subst g7; rfl
  by_cases g8 : n = "Jumlah Keterlambatan"
  · subst g8; rfl
  by_cases g9 : n = "Jumlah Hari Izin"
  · subst g9; rfl
  by_cases g10 : n = "Jumlah Hari Sakit"
  · subst g10; rfl
  by_cases g11 : n = "Pulang Cepat"
  · subst g11; rfl
  by_cases g12 : n = "Prestasi"
  · subst g12; rfl
  by_cases g13 : n = "Surat Peringatan"
  · subst g13; rfl
  rw [applyScore_extra_unknown e n v (by simp [CANONICAL_CRITERIA_ORDER, g1, h, g3, g4, g5, g6, g7, g8, g9, g10, g11, g12, g13])]

theorem applyScore_keep_kuantitasKerja (e : Employee) (n : String) (v : Int)
    (h : n ≠ "Kuantitas Kerja") :
    (applyScore e n v).kuantitasKerja = e.kuantitasKerja := by
  by_cases g1 : n = "Kualitas Kerja"
  · subst g1; rfl
  by_cases g2 : n = "Tanggung Jawab"
  · subst g2; rfl
  by_cases g4 : n = "Pemahaman Tugas"
  · subst g4; rfl
  by_cases g5 : n = "Inisiatif"
  · subst g5; rfl
  by_cases g6 : n = "Kerjasama"
  · subst g6; rfl
  by_cases g7 : n = "Jumlah Hari Alpa"
  · subst g7; rfl
  by_cases g8 : n = "Jumlah Keterlambatan"
  · subst g8; rfl
  by_cases g9 : n = "Jumlah Hari Izin"
  · subst g9; rfl
  by_cases g10 : n = "Jumlah Hari Sakit"
  · subst g10; rfl
  by_cases g11 : n = "Pulang Cepat"
  · subst g11; rfl
  by_cases g12 : n = "Prestasi"
  · subst g12; rfl
  by_cases g13 : n = "Surat Peringatan"
  · subst g13; rfl
  rw [applyScore_extra_unknown e n v (by simp [CANONICAL_CRITERIA_ORDER, g1, g2, h, g4, g5, g6, g7, g8, g9, g10, g11, g12, g13])]

theorem applyScore_keep_pemahamanTugas (e : Employee) (n : String) (v : Int)
    (h : n ≠ "Pemahaman Tugas") :
    (applyScore e n v).pemahamanTugas = e.pemahamanTugas := by
  by_cases g1 : n = "Kualitas Kerja"
  · subst g1; rfl
  by_cases g2 : n = "Tanggung Jawab"
  · subst g2; rfl
  by_cases g3 : n = "Kuantitas Kerja"
  · subst g3; rfl
  by_cases g5 : n = "Inisiatif"
  · subst g5; rfl
  by_cases g6 : n = "Kerjasama"
  · subst g6; rfl
  by_cases g7 : n = "Jumlah Hari Alpa"
  · subst g7; rfl
  by_cases g8 : n = "Jumlah Keterlambatan"
  · subst g8; rfl
  by_cases g9 : n = "Jumlah Hari Izin"
  · subst g9; rfl
  by_cases g10 : n = "Jumlah Hari Sakit"
  · subst g10; rfl
  by_cases g11 : n = "Pulang Cepat"
  · subst g11; rfl
  by_cases g12 : n = "Prestasi"
  · subst g12; rfl
  by_cases g13 : n = "Surat Peringatan"
  · subst g13; rfl
  rw [applyScore_extra_unknown e n v (by simp [CANONICAL_CRITERIA_ORDER, g1, g2, g3, h, g5, g6, g7, g8, g9, g10, g11, g12, g13])]

theorem applyScore_keep_inisiatif (e : Employee) (n : String) (v : Int)
    (h : n ≠ "Inisiatif") :
    (applyScore e n v).inisiatif = e.inisiatif := by
  by_cases g1 : n = "Kualitas Kerja"
  · subst g1; rfl
  by_cases g2 : n = "Tanggung Jawab"
  · subst g2; rfl
  by_cases g3 : n = "Kuantitas Kerja"
  · subst g3; rfl
  by_cases g4 : n = "Pemahaman Tugas"
  · subst g4; rfl
  by_cases g6 : n = "Kerjasama"
  · subst g6; rfl
  by_cases g7 : n = "Jumlah Hari Alpa"
  · subst g7; rfl
  by_cases g8 : n = "Jumlah Keterlambatan"
  · subst g8; rfl
  by_cases g9 : n = "Jumlah Hari Izin"
  · subst g9; rfl
  by_cases g10 : n = "Jumlah Hari Sakit"
  · subst g10; rfl
  by_cases g11 : n = "Pulang Cepat"
  · subst g11; rfl
  by_cases g12 : n = "Prestasi"
  · subst g12; rfl
  by_cases g13 : n = "Surat Peringatan"
  · subst g13; rfl
  rw [applyScore_extra_unknown e n v (by simp [CANONICAL_CRITERIA_ORDER, g1, g2, g3, g4, h, g6, g7, g8, g9, g10, g11, g12, g13])]

theorem applyScore_keep_kerjasama (e : Employee) (n : String) (v : Int)
    (h : n ≠ "Kerjasama") :
    (applyScore e n v).kerjasama = e.kerjasama := by
  by_cases g1 : n = "Kualitas Kerja"
  · subst g1; rfl
  by_cases g2 : n = "Tanggung Jawab"
  · subst g2; rfl
  by_cases g3 : n = "Kuantitas Kerja"
  · subst g3; rfl
  by_cases g4 : n = "Pemahaman Tugas"
  · subst g4; rfl
  by_cases g5 : n = "Inisiatif"
  · subst g5; rfl
  by_cases g7 : n = "Jumlah Hari Alpa"
  · subst g7; rfl
  by_cases g8 : n = "Jumlah Keterlambatan"
  · subst g8; rfl
  by_cases g9 : n = "Jumlah Hari Izin"
  · subst g9; rfl
  by_cases g10 : n = "Jumlah Hari Sakit"
  · subst g10; rfl
  by_cases g11 : n = "Pulang Cepat"
  · subst g11; rfl
  by_cases g12 : n = "Prestasi"
  · subst g12; rfl
  by_cases g13 : n = "Surat Peringatan"
  · subst g13; rfl
  rw [applyScore_extra_unknown e n v (by simp [CANONICAL_CRITERIA_ORDER, g1, g2, g3, g4, g5, h, g7, g8, g9, g10, g11, g12, g13])]

theorem applyScore_keep_hariAlpa (e : Employee) (n : String) (v : Int)
    (h : n ≠ "Jumlah Hari Alpa") :
    (applyScore e n v).hariAlpa = e.hariAlpa := by
  by_cases g1 : n = "Kualitas Kerja"
  · subst g1; rfl
  by_cases g2 : n = "Tanggung Jawab"
  · subst g2; rfl
  by_cases g3 : n = "Kuantitas Kerja"
  · subst g3; rfl
  by_cases g4 : n = "Pemahaman Tugas"
  · subst g4; rfl
  by_cases g5 : n = "Inisiatif"
  · subst g5; rfl
  by_cases g6 : n = "Kerjasama"
  · subst g6; rfl
  by_cases g8 : n = "Jumlah Keterlambatan"
  · subst g8; rfl
  by_cases g9 : n = "Jumlah Hari Izin"
  · subst g9; rfl
  by_cases g10 : n = "Jumlah Hari Sakit"
  · subst g10; rfl
  by_cases g11 : n = "Pulang Cepat"
  · subst g11; rfl
  by_cases g12 : n = "Prestasi"
  · subst g12; rfl
  by_cases g13 : n = "Surat Peringatan"
  · subst g13; rfl
  rw [applyScore_extra_unknown e n v (by simp [CANONICAL_CRITERIA_ORDER, g1, g2, g3, g4, g5, g6, h, g8, g9, g10, g11, g12, g13])]

theorem applyScore_keep_keterlambatan (e : Employee) (n : String) (v : Int)
    (h : n ≠ "Jumlah Keterlambatan") :
    (applyScore e n v).keterlambatan = e.keterlambatan := by
  by_cases g1 : n = "Kualitas Kerja"
  · subst g1; rfl
  by_cases g2 : n = "Tanggung Jawab"
  · subst g2; rfl
  by_cases g3 : n = "Kuantitas Kerja"
  · subst g3; rfl
  by_cases g4 : n = "Pemahaman Tugas"
  · subst g4; rfl
  by_cases g5 : n = "Inisiatif"
  · subst g5; rfl
  by_cases g6 : n = "Kerjasama"
  · subst g6; rfl
  by_cases g7 : n = "Jumlah Hari Alpa"
  · subst g7; rfl
  by_cases g9 : n = "Jumlah Hari Izin"
  · subst g9; rfl
  by_cases g10 : n = "Jumlah Hari Sakit"
  · subst g10; rfl
  by_cases g11 : n = "Pulang Cepat"
  · subst g11; rfl
  by_cases g12 : n = "Prestasi"
  · subst g12; rfl
  by_cases g13 : n = "Surat Peringatan"
  · subst g13; rfl
  rw [applyScore_extra_unknown e n v (by simp [CANONICAL_CRITERIA_ORDER, g1, g2, g3, g4, g5, g6, g7, h, g9, g10, g11, g12, g13])]

theorem applyScore_keep_hariIzin (e : Employee) (n : String) (v : Int)
    (h : n ≠ "Jumlah Hari Izin") :
    (applyScore e n v).hariIzin = e.hariIzin := by
  by_cases g1 : n = "Kualitas Kerja"
  · subst g1; rfl
  by_cases g2 : n = "Tanggung Jawab"
  · subst g2; rfl
  by_cases g3 : n = "Kuantitas Kerja"
  · subst g3; rfl
  by_cases g4 : n = "Pemahaman Tugas"
  · subst g4; rfl
  by_cases g5 : n = "Inisiatif"
  · subst g5; rfl
  by_cases g6 : n = "Kerjasama"
  · subst g6; rfl
  by_cases g7 : n = "Jumlah Hari Alpa"
  · subst g7; rfl
  by_cases g8 : n = "Jumlah Keterlambatan"
  · subst g8; rfl
  by_cases g10 : n = "Jumlah Hari Sakit"
  · subst g10; rfl
  by_cases g11 : n = "Pulang Cepat"
  · subst g11; rfl
  by_cases g12 : n = "Prestasi"
  · subst g12; rfl
  by_cases g13 : n = "Surat Peringatan"
  · subst g13; rfl
  rw [applyScore_extra_unknown e n v (by simp [CANONICAL_CRITERIA_ORDER, g1, g2, g3, g4, g5, g6, g7, g8, h, g10, g11, g12, g13])]

theorem applyScore_keep_hariSakit (e : Employee) (n : String) (v : Int)
    (h : n ≠ "Jumlah Hari Sakit") :
    (applyScore e n v).hariSakit = e.hariSakit := by
  by_cases g1 : n = "Kualitas Kerja"
  · subst g1; rfl
  by_cases g2 : n = "Tanggung Jawab"
  · subst g2; rfl
  by_cases g3 : n = "Kuantitas Kerja"
  · subst g3; rfl
  by_cases g4 : n = "Pemahaman Tugas"
  · subst g4; rfl
  by_cases g5 : n = "Inisiatif"
  · subst g5; rfl
  by_cases g6 : n = "Kerjasama"
  · subst g6; rfl
  by_cases g7 : n = "Jumlah Hari Alpa"
  · subst g7; rfl
  by_cases g8 : n = "Jumlah Keterlambatan"
  · subst g8; rfl
  by_cases g9 : n = "Jumlah Hari Izin"
  · subst g9; rfl
  by_cases g11 : n = "Pulang Cepat"
  · subst g11; rfl
  by_cases g12 : n = "Prestasi"
  · subst g12; rfl
  by_cases g13 : n = "Surat Peringatan"
  · subst g13; rfl
  rw [applyScore_extra_unknown e n v (by simp [CANONICAL_CRITERIA_ORDER, g1, g2, g3, g4, g5, g6, g7, g8, g9, h, g11, g12, g13])]

theorem applyScore_keep_pulangCepat (e : Employee) (n : String) (v : Int)
    (h : n ≠ "Pulang Cepat") :
    (applyScore e n v).pulangCepat = e.pulangCepat := by
  by_cases g1 : n = "Kualitas Kerja"
  · subst g1; rfl
  by_cases g2 : n = "Tanggung Jawab"
  · subst g2; rfl
  by_cases g3 : n = "Kuantitas Kerja"
  · subst g3; rfl
  by_cases g4 : n = "Pemahaman Tugas"
  · subst g4; rfl
  by_cases g5 : n = "Inisiatif"
  · subst g5; rfl
  by_cases g6 : n = "Kerjasama"
  · subst g6; rfl
  by_cases g7 : n = "Jumlah Hari Alpa"
  · subst g7; rfl
  by_cases g8 : n = "Jumlah Keterlambatan"
  · subst g8; rfl
  by_cases g9 : n = "Jumlah Hari Izin"
  · subst g9; rfl
  by_cases g10 : n = "Jumlah Hari Sakit"
  · subst g10; rfl
  by_cases g12 : n = "Prestasi"
  · subst g12; rfl
  by_cases g13 : n = "Surat Peringatan"
  · subst g13; rfl
  rw [applyScore_extra_unknown e n v (by simp [CANONICAL_CRITERIA_ORDER, g1, g2, g3, g4, g5, g6, g7, g8, g9, g10, h, g12, g13])]

theorem applyScore_keep_prestasi (e : Employee) (n : String) (v : Int)
    (h : n ≠ "Prestasi") :
    (applyScore e n v).prestasi = e.prestasi := by
  by_cases g1 : n = "Kualitas Kerja"
  · subst g1; rfl
  by_cases g2 : n = "Tanggung Jawab"
  · subst g2; rfl
  by_cases g3 : n = "Kuantitas Kerja"
  · subst g3; rfl
  by_cases g4 : n = "Pemahaman Tugas"
  · subst g4; rfl
  by_cases g5 : n = "Inisiatif"
  · subst g5; rfl
  by_cases g6 : n = "Kerjasama"
  · subst g6; rfl
  by_cases g7 : n = "Jumlah Hari Alpa"
  · subst g7; rfl
  by_cases g8 : n = "Jumlah Keterlambatan"
  · subst g8; rfl
  by_cases g9 : n = "Jumlah Hari Izin"
  · subst g9; rfl
  by_cases g10 : n = "Jumlah Hari Sakit"
  · subst g10; rfl
  by_cases g11 : n = "Pulang Cepat"
  · subst g11; rfl
  by_cases g13 : n = "Surat Peringatan"
  · subst g13; rfl
  rw [applyScore_extra_unknown e n v (by simp [CANONICAL_CRITERIA_ORDER, g1, g2, g3, g4, g5, g6, g7, g8, g9, g10, g11, h, g13])]

theorem applyScore_keep_suratPeringatan (e : Employee) (n : String) (v : Int)
    (h : n ≠ "Surat Peringatan") :
    (applyScore e n v).suratPeringatan = e.suratPeringatan := by
  by_cases g1 : n = "Kualitas Kerja"
  · subst g1; rfl
  by_cases g2 : n = "Tanggung Jawab"
  · subst g2; rfl
  by_cases g3 : n = "Kuantitas Kerja"
  · subst g3; rfl
  by_cases g4 : n = "Pemahaman Tugas"
  · subst g4; rfl
  by_cases g5 : n = "Inisiatif"
  · subst g5; rfl
  by_cases g6 : n = "Kerjasama"
  · subst g6; rfl
  by_cases g7 : n = "Jumlah Hari Alpa"
  · subst g7; rfl
  by_cases g8 : n = "Jumlah Keterlambatan"
  · subst g8; rfl
  by_cases g9 : n = "Jumlah Hari Izin"
  · subst g9; rfl
  by_cases g10 : n = "Jumlah Hari Sakit"
  · subst g10; rfl
  by_cases g11 : n = "Pulang Cepat"
  · subst g11; rfl
  by_cases g12 : n = "Prestasi"
  · subst g12; rfl
  rw [applyScore_extra_unknown e n v (by simp [CANONICAL_CRITERIA_ORDER, g1, g2, g3, g4, g5, g6, g7, g8, g9, g10, g11, g12, h])]

theorem getSlot_unknown (e : Employee) (m : String)
    (h : m ∉ CANONICAL_CRITERIA_ORDER) :
    getSlot e m = jsOr (extraGet e.extra m) 0 := by
  have g1 : m ≠ "Kualitas Kerja" := fun hc => h (by rw [hc]; decide)
  have g2 : m ≠ "Tanggung Jawab" := fun hc => h (by rw [hc]; decide)
  have g3 : m ≠ "Kuantitas Kerja" := fun hc => h (by rw [hc]; decide)
  have g4 : m ≠ "Pemahaman Tugas" := fun hc => h (by rw [hc]; decide)
  have g5 : m ≠ "Inisiatif" := fun hc => h (by rw [hc]; decide)
  have g6 : m ≠ "Kerjasama" := fun hc => h (by rw [hc]; decide)
  have g7 : m ≠ "Jumlah Hari Alpa" := fun hc => h (by rw [hc]; decide)
  have g8 : m ≠ "Jumlah Keterlambatan" := fun hc => h (by rw [hc]; decide)
  have g9 : m ≠ "Jumlah Hari Izin" := fun hc => h (by rw [hc]; decide)
  have g10 : m ≠ "Jumlah Hari Sakit" := fun hc => h (by rw [hc]; decide)
  have g11 : m ≠ "Pulang Cepat" := fun hc => h (by rw [hc]; decide)
  have g12 : m ≠ "Prestasi" := fun hc => h (by rw [hc]; decide)
  have g13 : m ≠ "Surat Peringatan" := fun hc => h (by rw [hc]; decide)
  unfold getSlot
  rw [if_neg g1, if_neg g2, if_neg g3, if_neg g4, if_neg g5, if_neg g6, if_neg g7, if_neg g8, if_neg g9, if_neg g10, if_neg g11, if_neg g12, if_neg g13]

theorem getSlot_applyScore_self (e : Employee) (n : String) (v : Int) :
    getSlot (applyScore e n v) n = v := by
  by_cases g1 : n = "Kualitas Kerja"
  · subst g1; rfl
  by_cases g2 : n = "Tanggung Jawab"
  · subst g2; rfl
  by_cases g3 : n = "Kuantitas Kerja"
  · subst g3; rfl
  by_cases g4 : n = "Pemahaman Tugas"
  · subst g4; rfl
  by_cases g5 : n = "Inisiatif"
  · subst g5; rfl
  by_cases g6 : n = "Kerjasama"
  · subst g6; rfl
  by_cases g7 : n = "Jumlah Hari Alpa"
  · subst g7; rfl
  by_cases g8 : n = "Jumlah Keterlambatan"
  · subst g8; rfl
  by_cases g9 : n = "Jumlah Hari Izin"
  · subst g9; rfl
  by_cases g10 : n = "Jumlah Hari Sakit"
  · subst g10; rfl
  by_cases g11 : n = "Pulang Cepat"
  · subst g11; rfl
  by_cases g12 : n = "Prestasi"
  · subst g12; rfl
  by_cases g13 : n = "Surat Peringatan"
  · subst g13; rfl
  have hmem : n ∉ CANONICAL_CRITERIA_ORDER := by simp [CANONICAL_CRITERIA_ORDER, g1, g2, g3, g4, g5, g6, g7, g8, g9, g10, g11, g12, g13]
  rw [applyScore_extra_unknown e n v hmem, getSlot_unknown _ _ hmem]
  show jsOr (extraGet (extraSet e.extra n v) n) 0 = v
  rw [extraGet_extraSet_self, jsOr_some]

theorem getSlot_applyScore_other (e : Employee) (n m : String) (v : Int)
    (h : n ≠ m) : getSlot (applyScore e n v) m = getSlot e m := by
  by_cases g1 : m = "Kualitas Kerja"
  · subst g1
    show (applyScore e n v).kualitasKerja = e.kualitasKerja
    exact applyScore_keep_kualitasKerja e n v h
  by_cases g2 : m = "Tanggung Jawab"
  · subst g2
    show (applyScore e n v).tanggungJawab = e.tanggungJawab
    exact applyScore_keep_tanggungJawab e n v h
  by_cases g3 : m = "Kuantitas Kerja"
  · subst g3
    show (applyScore e n v).kuantitasKerja = e.kuantitasKerja
    exact applyScore_keep_kuantitasKerja e n v h
  by_cases g4 : m = "Pemahaman Tugas"
  · subst g4
    show (applyScore e n v).pemahamanTugas = e.pemahamanTugas
    exact applyScore_keep_pemahamanTugas e n v h
  by_cases g5 : m = "Inisiatif"
  · subst g5
    show (applyScore e n v).inisiatif = e.inisiatif
    exact applyScore_keep_inisiatif e n v h
  by_cases g6 : m = "Kerjasama"
  · subst g6
    show (applyScore e n v).kerjasama = e.kerjasama
    exact applyScore_keep_kerjasama e n v h
  by_cases g7 : m = "Jumlah Hari Alpa"
  · subst g7
    show (applyScore e n v).hariAlpa = e.hariAlpa
    exact applyScore_keep_hariAlpa e n v h
  by_cases g8 : m = "Jumlah Keterlambatan"
  · subst g8
    show (applyScore e n v).keterlambatan = e.keterlambatan
    exact applyScore_keep_keterlambatan e n v h
  by_cases g9 : m = "Jumlah Hari Izin"
  · subst g9
    show (applyScore e n v).hariIzin = e.hariIzin
    exact applyScore_keep_hariIzin e n v h
  by_cases g10 : m = "Jumlah Hari Sakit"
  · subst g10
    show (applyScore e n v).hariSakit = e.hariSakit
    exact applyScore_keep_hariSakit e n v h
  by_cases g11 : m = "Pulang Cepat"
  · subst g11
    show (applyScore e n v).pulangCepat = e.pulangCepat
    exact applyScore_keep_pulangCepat e n v h
  by_cases g12 : m = "Prestasi"
  · subst g12
    show (applyScore e n v).prestasi = e.prestasi
    exact applyScore_keep_prestasi e n v h
  by_cases g13 : m = "Surat Peringatan"
  · subst g13
    show (applyScore e n v).suratPeringatan = e.suratPeringatan
    exact applyScore_keep_suratPeringatan e n v h
  have hmem : m ∉ CANONICAL_CRITERIA_ORDER := by simp [CANONICAL_CRITERIA_ORDER, g1, g2, g3, g4, g5, g6, g7, g8, g9, g10, g11, g12, g13]
  rw [getSlot_unknown _ _ hmem, getSlot_unknown _ _ hmem]
  by_cases hn : n ∈ CANONICAL_CRITERIA_ORDER
  · rw [applyScore_extra_known e n v hn]
  · rw [applyScore_extra_unknown e n v hn]
    show jsOr (extraGet (extraSet e.extra n v) m) 0 = jsOr (extraGet e.extra m) 0
    rw [extraGet_extraSet_other _ _ _ _ (fun hc => h hc.symm)]

/-- Reading any slot after the projection writes criterion `n` with value `v`:
slot `n` now holds `v`, every other slot is untouched. -/
theorem getSlot_applyScore (e : Employee) (n m : String) (v : Int) :
    getSlot (applyScore e n v) m = if n = m then v else getSlot e m := by
  by_cases h : n = m
  · rw [if_pos h, ← h]
    exact getSlot_applyScore_self e n v
  · rw [if_neg h]
    exact getSlot_applyScore_other e n m v h

/-! ## Claim C7: the two default computations -/

def coreBenefitNames : List String :=
  ["Kualitas Kerja", "Tanggung Jawab", "Kuantitas Kerja", "Pemahaman Tugas",
   "Inisiatif", "Kerjasama"]

def disciplineCostNames : List String :=
  ["Jumlah Hari Alpa", "Jumlah Keterlambatan", "Jumlah Hari Izin",
   "Jumlah Hari Sakit", "Pulang Cepat"]

/-- The type/scale configuration the canonical criteria are expected to carry:
the six core names are Benefit on a `1-5` scale, the five discipline names are
Cost, and the two bonus/penalty names are either Cost or binary Benefit. -/
def canonicalConfig (c : Criteria) : Prop :=
  (c.name ∈ coreBenefitNames ∧ c.type = "Benefit" ∧ strIncludes c.scale "1-5" = true) ∨
  (c.name ∈ disciplineCostNames ∧ c.type ≠ "Benefit") ∨
  ((c.name = "Prestasi" ∨ c.name = "Surat Peringatan") ∧
    (c.type ≠ "Benefit" ∨
      (strIncludes c.scale "1-5" = false ∧
        (strIncludes c.scale "0-1" = true ∨ strIncludes c.scale "0/1" = true))))

instance (c : Criteria) : Decidable (canonicalConfig c) := by
  unfold canonicalConfig; infer_instance

/-- Claim C7 counterexample: the form-initialization default is computed from
(type, scale) but the projection's slot default is fixed per slot, so a
criterion named `Prestasi` of type Benefit with scale `1-5` initializes to 1
in the form while the projection defaults its slot to 0. -/
theorem C7_default_mismatch_cex :
    defaultScore ⟨"c12", "Prestasi", "Benefit", "Faktor Tambahan", 5, "1-5"⟩ = 1 ∧
    getSlot (initialEmployee "e1" "Alice") "Prestasi" = 0 ∧
    defaultScore ⟨"c12", "Prestasi", "Benefit", "Faktor Tambahan", 5, "1-5"⟩ ≠
      getSlot (initialEmployee "e1" "Alice") "Prestasi" := by
  refine ⟨by decide, by decide, by decide⟩

/-- Claim C7 (amended): the form-initialization default and the projection's
slot default agree for every criterion whose (type, scale) matches the
canonical configuration of its name. -/
theorem C7_defaults_amended (c : Criteria) (eid ename : String)
    (h : canonicalConfig c) :
    defaultScore c = getSlot (initialEmployee eid ename) c.name := by
  rcases h with ⟨hmem, htype, hscale⟩ | ⟨hmem, htype⟩ | ⟨hname, hrest⟩
  · have ht : (c.type == "Benefit") = true := by simp [htype]
    simp only [defaultScore, ht, if_true, hscale]
    simp only [coreBenefitNames, List.mem_cons, List.mem_singleton,
      List.not_mem_nil, or_false] at hmem
    rcases hmem with h | h | h | h | h | h <;>
      simp [getSlot, initialEmployee, h]
  · have ht : (c.type == "Benefit") = false := by
      simpa [beq_eq_false_iff_ne] using htype
    simp only [defaultScore, ht, Bool.false_eq_true, if_false]
    simp only [disciplineCostNames, List.mem_cons, List.mem_singleton,
      List.not_mem_nil, or_false] at hmem
    rcases hmem with h | h | h | h | h <;>
      simp [getSlot, initialEmployee, h]
  · by_cases ht : c.type = "Benefit"
    · rcases hrest with htype | ⟨h15, hbin⟩
      · exact absurd ht htype
      · have ht' : (c.type == "Benefit") = true := by simp [ht]
        have hb : (strIncludes c.scale "0-1" || strIncludes c.scale "0/1") = true := by
          rcases hbin with hb | hb <;> simp [hb]
        simp only [defaultScore, ht', if_true, h15, Bool.false_eq_true, if_false,
          hb]
        rcases hname with h | h <;> simp [getSlot, initialEmployee, h]
    · have ht' : (c.type == "Benefit") = false := by
        simpa [beq_eq_false_iff_ne] using ht
      simp only [defaultScore, ht', Bool.false_eq_true, if_false]
      rcases hname with h | h <;> simp [getSlot, initialEmployee, h]

/-- Claim C7 witness: for the canonical binary-Benefit `Prestasi` the two
defaults agree. -/
theorem C7_defaults_amended_witness :
    canonicalConfig ⟨"c12", "Prestasi", "Benefit", "Faktor Tambahan", 5, "0-1"⟩ ∧
    defaultScore ⟨"c12", "Prestasi", "Benefit", "Faktor Tambahan", 5, "0-1"⟩ =
      getSlot (initialEmployee "e1" "Alice") "Prestasi" :=
  ⟨by decide, C7_defaults_amended _ "e1" "Alice" (by decide)⟩

/-! ## ScoreReconciler -/

/-- A row of the existing-score lookup
(`select('id, criteria_id').eq('employee_id', ...)`). -/
structure ExistingScore where
  id : String
  criteria_id : String
deriving DecidableEq, Repr

/-- `existingScoresMap` (EmployeeForm lines 304-308 / EditEmployeeDialog lines
181-185): a JS `Map` from `criteria_id` to the persisted row id. -/
def existingScoresMap (existing : List ExistingScore) : List (String × String) :=
  existing.foldl (fun m s => extraSet m s.criteria_id s.id) []

/-- The conditional `if (existingId) scoreData.id = existingId`: a JS truthy
check, so `undefined` and the empty string both leave the id unset. -/
def optTruthy (s : Option String) : Option String :=
  match s with
  | some v => if v = "" then none else some v
  | none => none

/-- An element of the upsert payload (`scoreData`), with the optional prior
row identity. -/
structure PlanEntry where
  id : Option String
  employee_id : String
  criteria_id : String
  score : Int
deriving DecidableEq, Repr

/-- Plan construction of `handleSubmit` (EmployeeForm lines 310-325, and the
name-keyed variant EditEmployeeDialog lines 187-203): one entry per current
criterion, scoring `formData[criterion.id] || 0`, carrying the persisted row
id exactly when the existing-scores map has one for the criterion. -/
def reconcile (employeeId : String) (criteria : List Criteria)
    (fd : List (String × Int)) (existing : List ExistingScore) : List PlanEntry :=
  criteria.map (fun criterion =>
    { id := optTruthy (extraGet (existingScoresMap existing) criterion.id),
      employee_id := employeeId,
      criteria_id := criterion.id,
      score := jsOr (extraGet fd criterion.id) 0 })

theorem extraGet_build (rows : List ExistingScore) (k : String) :
    ∀ m : List (String × String),
      extraGet (rows.foldl (fun acc s => extraSet acc s.criteria_id s.id) m) k =
        match rows.reverse.find? (fun s => s.criteria_id == k) with
        | some s => some s.id
        | none => extraGet m k := by
  induction rows with
  | nil => intro m; simp
  | cons r rs ih =>
    intro m
    simp only [List.foldl_cons, List.reverse_cons, List.find?_append]
    rw [ih]
    cases hfind : rs.reverse.find? (fun s => s.criteria_id == k) with
    | some s => simp
    | none =>
      simp only [Option.none_or]
      by_cases hr : r.criteria_id == k
      · have hfr : List.find? (fun s => s.criteria_id == k) [r] = some r := by
          simp [hr]
        rw [hfr]
        have hrk : r.criteria_id = k := by simpa using hr
        show extraGet (extraSet m r.criteria_id r.id) k = some r.id
        rw [← hrk, extraGet_extraSet_self]
      · have hr' : (r.criteria_id == k) = false := by simpa using hr
        have hfr : List.find? (fun s => s.criteria_id == k) [r] = none := by
          simp [List.find?, hr']
        rw [hfr]
        show extraGet (extraSet m r.criteria_id r.id) k = extraGet m k
        rw [extraGet_extraSet_other _ _ _ _
          (fun hc => absurd (by simp [hc] : (r.criteria_id == k) = true) hr)]

/-- What the optional id of a plan entry means in terms of the lookup rows:
given unique criterion ids in the lookup result and non-empty row ids, the
entry id is `some rid` exactly when a row `(rid, cid)` exists, and `none`
exactly when no row covers `cid`. -/
theorem lookupId_spec (existing : List ExistingScore) (cid : String)
    (hnd : (existing.map (fun s => s.criteria_id)).Nodup)
    (hne : ∀ r ∈ existing, r.id ≠ "") :
    (∀ rid, optTruthy (extraGet (existingScoresMap existing) cid) = some rid ↔
      ∃ r ∈ existing, r.criteria_id = cid ∧ r.id = rid) ∧
    (optTruthy (extraGet (existingScoresMap existing) cid) = none ↔
      ∀ r ∈ existing, r.criteria_id ≠ cid) := by
  have hb := extraGet_build existing cid []
  cases hfind : existing.reverse.find? (fun s => s.criteria_id == cid) with
  | some s =>
    rw [hfind] at hb
    have hmem : s ∈ existing := by
      have := List.mem_of_find?_eq_some hfind
      simpa using this
    have hcid : s.criteria_id = cid := by
      have := List.find?_some hfind
      simpa using this
    have hid : s.id ≠ "" := hne s hmem
    unfold existingScoresMap
    rw [hb]
    have hopt : optTruthy (some s.id) = some s.id := by
      simp [optTruthy, hid]
    rw [hopt]
    constructor
    · intro rid
      constructor
      · intro h
        exact ⟨s, hmem, hcid, by simpa using h⟩
      · rintro ⟨r, hr, hrcid, rfl⟩
        have : s = r := List.inj_on_of_nodup_map hnd hmem hr (by rw [hcid, hrcid])
        rw [this]
    · constructor
      · intro h; simp at h
      · intro h
        exact absurd hcid (h s hmem)
  | none =>
    rw [hfind] at hb
    have hnone : ∀ r ∈ existing, r.criteria_id ≠ cid := by
      intro r hr
      have := List.find?_eq_none.mp hfind r (by simpa using hr)
      simpa using this
    unfold existingScoresMap
    rw [hb]
    refine ⟨fun rid => ?_, ?_⟩
    · simp only [optTruthy, extraGet, List.find?_nil]
      constructor
      · intro h; simp at h
      · rintro ⟨r, hr, hrcid, rfl⟩
        exact absurd hrcid (hnone r hr)
    · simp only [optTruthy, extraGet, List.find?_nil]
      constructor
      · intro _; exact hnone
      · intro _; rfl

/-- Claim C1: the plan has one entry per current criterion, in order; an entry
carries the persisted row id exactly when the lookup returned a row for that
criterion; entries for previously unscored criteria carry no id.  The lookup
rows are assumed unique per criterion (the store's uniqueness invariant) and
to carry non-empty ids (the JS truthy check drops an empty id). -/
theorem C1_reconcile_plan (eid : String) (criteria : List Criteria)
    (fd : List (String × Int)) (existing : List ExistingScore)
    (hnd : (existing.map (fun s => s.criteria_id)).Nodup)
    (hne : ∀ r ∈ existing, r.id ≠ "") :
    (reconcile eid criteria fd existing).length = criteria.length ∧
    ∀ i (hi : i < criteria.length)
      (hp : i < (reconcile eid criteria fd existing).length),
      ((reconcile eid criteria fd existing).get ⟨i, hp⟩).employee_id = eid ∧
      ((reconcile eid criteria fd existing).get ⟨i, hp⟩).criteria_id =
        (criteria.get ⟨i, hi⟩).id ∧
      (∀ rid, ((reconcile eid criteria fd existing).get ⟨i, hp⟩).id = some rid ↔
        ∃ r ∈ existing, r.criteria_id = (criteria.get ⟨i, hi⟩).id ∧ r.id = rid) ∧
      (((reconcile eid criteria fd existing).get ⟨i, hp⟩).id = none ↔
        ∀ r ∈ existing, r.criteria_id ≠ (criteria.get ⟨i, hi⟩).id) := by
  have hlen : (reconcile eid criteria fd existing).length = criteria.length := by
    simp [reconcile]
  refine ⟨hlen, ?_⟩
  intro i hi hp
  have hget : (reconcile eid criteria fd existing).get ⟨i, hp⟩ =
      { id := optTruthy (extraGet (existingScoresMap existing)
          (criteria.get ⟨i, hi⟩).id),
        employee_id := eid,
        criteria_id := (criteria.get ⟨i, hi⟩).id,
        score := jsOr (extraGet fd (criteria.get ⟨i, hi⟩).id) 0 } := by
    simp [reconcile]
  rw [hget]
  have hspec := lookupId_spec existing (criteria.get ⟨i, hi⟩).id hnd hne
  exact ⟨rfl, rfl, hspec.1, hspec.2⟩

def demoCriteria : List Criteria :=
  [⟨"a", "Kualitas Kerja", "Benefit", "Kinerja Inti", 10, "1-5"⟩,
   ⟨"b", "Tanggung Jawab", "Benefit", "Kinerja Inti", 10, "1-5"⟩,
   ⟨"c", "Kuantitas Kerja", "Benefit", "Kinerja Inti", 10, "1-5"⟩]

def demoExisting : List ExistingScore := [⟨"idA", "a"⟩, ⟨"idB", "b"⟩]

def demoFd : List (String × Int) := [("a", 4), ("b", 3), ("c", 5)]

/-- Claim C1 witness: existing scores for criteria a and b, submission over
a, b, c — the plan keeps the identities of a and b and none for c. -/
theorem C1_reconcile_plan_witness :
    (reconcile "e1" demoCriteria demoFd demoExisting).length =
      demoCriteria.length ∧
    ((reconcile "e1" demoCriteria demoFd demoExisting).get ⟨0, by decide⟩).id =
      some "idA" ∧
    ((reconcile "e1" demoCriteria demoFd demoExisting).get ⟨1, by decide⟩).id =
      some "idB" ∧
    ((reconcile "e1" demoCriteria demoFd demoExisting).get ⟨2, by decide⟩).id =
      none := by
  have h := C1_reconcile_plan "e1" demoCriteria demoFd demoExisting
    (by decide) (by decide)
  refine ⟨h.1, ?_, ?_, ?_⟩
  · exact ((h.2 0 (by decide) (by decide)).2.2.1 "idA").mpr (by decide)
  · exact ((h.2 1 (by decide) (by decide)).2.2.1 "idB").mpr (by decide)
  · exact ((h.2 2 (by decide) (by decide)).2.2.2).mpr (by decide)

/-! ## Score store and batched upsert -/

/-- A persisted `evaluation_scores` row. -/
structure ScoreRow where
  id : String
  employee_id : String
  criteria_id : String
  score : Int
deriving DecidableEq, Repr

/-- The store's rows for one `(employee_id, criteria_id)` conflict key. -/
def byKey (store : List ScoreRow) (e c : String) : List ScoreRow :=
  store.filter (fun r => r.employee_id == e && r.criteria_id == c)

/-- At most one Score row per (employee, criterion) pair. -/
def ScoresInvariant (store : List ScoreRow) : Prop :=
  ∀ e c, (byKey store e c).length ≤ 1

/-- Modelled from the spec: one row of the store's upsert with conflict key
`(employee_id, criteria_id)` (spec §4.5, §6 `upsertBatch`); the Supabase call
is an external collaborator, so its row semantics is taken from the spec — an
entry whose key already exists updates that row's score in place, any other
entry inserts a new row (keeping the entry's id when it carries one, taking a
store-generated fresh id otherwise). -/
def upsertOne (store : List ScoreRow) (e : PlanEntry) (freshId : String) :
    List ScoreRow :=
  if store.any (fun r => r.employee_id == e.employee_id &&
      r.criteria_id == e.criteria_id) then
    store.map (fun r =>
      if r.employee_id == e.employee_id && r.criteria_id == e.criteria_id then
        { r with score := e.score }
      else r)
  else
    store ++ [{ id := e.id.getD freshId, employee_id := e.employee_id,
                criteria_id := e.criteria_id, score := e.score }]

/-- Modelled from the spec: the atomic batched upsert applies the plan rows in
order against the conflict key, drawing fresh ids from a supply. -/
def upsertBatch (store : List ScoreRow) (plan : List PlanEntry)
    (fresh : Nat → String) : List ScoreRow :=
  match plan with
  | [] => store
  | e :: rest => upsertBatch (upsertOne store e (fresh 0)) rest (fun n => fresh (n + 1))

/-- The existing-score lookup
`select('id, criteria_id').eq('employee_id', eid)`. -/
def fetchExisting (store : List ScoreRow) (eid : String) : List ExistingScore :=
  (store.filter (fun r => r.employee_id == eid)).map
    (fun r => { id := r.id, criteria_id := r.criteria_id })

/-- One full submission of `handleSubmit`: look up the employee's existing
scores, build the reconciliation plan, upsert it. -/
def applySubmission (store : List ScoreRow) (eid : String)
    (criteria : List Criteria) (fd : List (String × Int))
    (fresh : Nat → String) : List ScoreRow :=
  upsertBatch store (reconcile eid criteria fd (fetchExisting store eid)) fresh

/-- Number of Score rows the store holds for one employee. -/
def countFor (store : List ScoreRow) (eid : String) : Nat :=
  (store.filter (fun r => r.employee_id == eid)).length

theorem filter_map_invariant {α : Type} {g : α → α} {p : α → Bool}
    (h1 : ∀ r, p (g r) = p r) (h2 : ∀ r, p r = true → g r = r) :
    ∀ l : List α, (l.map g).filter p = l.filter p := by
  intro l
  induction l with
  | nil => rfl
  | cons a as ih =>
    simp only [List.map_cons, List.filter_cons, h1 a]
    cases hp : p a with
    | true => rw [h2 a hp, ih]
    | false => exact ih

theorem filter_map_comm {α : Type} {g : α → α} {p : α → Bool}
    (h1 : ∀ r, p (g r) = p r) :
    ∀ l : List α, (l.map g).filter p = (l.filter p).map g := by
  intro l
  induction l with
  | nil => rfl
  | cons a as ih =>
    simp only [List.map_cons, List.filter_cons, h1 a]
    cases hp : p a with
    | true => simp [ih]
    | false => exact ih

theorem any_iff_filter_ne_nil {α : Type} (p : α → Bool) (l : List α) :
    l.any p = true ↔ l.filter p ≠ [] := by
  rw [List.any_eq_true]
  constructor
  · rintro ⟨x, hx, hpx⟩ hnil
    have : x ∈ l.filter p := List.mem_filter.mpr ⟨hx, hpx⟩
    simp [hnil] at this
  · intro h
    rcases List.exists_mem_of_ne_nil _ h with ⟨x, hx⟩
    rcases List.mem_filter.mp hx with ⟨hxl, hpx⟩
    exact ⟨x, hxl, hpx⟩

theorem upsertOne_keyPred (e : PlanEntry) (r : ScoreRow)
    (a b : String) :
    ((if r.employee_id == e.employee_id && r.criteria_id == e.criteria_id then
        { r with score := e.score } else r).employee_id == a &&
     (if r.employee_id == e.employee_id && r.criteria_id == e.criteria_id then
        { r with score := e.score } else r).criteria_id == b) =
    (r.employee_id == a && r.criteria_id == b) := by
  split_ifs <;> rfl

theorem byKey_upsertOne_other (st : List ScoreRow) (e : PlanEntry) (f : String)
    (a b : String) (h : ¬(a = e.employee_id ∧ b = e.criteria_id)) :
    byKey (upsertOne st e f) a b = byKey st a b := by
  unfold upsertOne byKey
  split_ifs with hany
  · apply filter_map_invariant
    · intro r
      exact upsertOne_keyPred e r a b
    · intro r hr
      simp only [Bool.and_eq_true, beq_iff_eq] at hr
      split_ifs with hc
      · simp only [Bool.and_eq_true, beq_iff_eq] at hc
        exact absurd ⟨hr.1.symm.trans hc.1, hr.2.symm.trans hc.2⟩ h
      · rfl
  · rw [List.filter_append]
    have hpred : ((e.employee_id == a) && (e.criteria_id == b)) = false := by
      simp only [Bool.and_eq_false_iff, beq_eq_false_iff_ne, ne_eq]
      by_cases ha : e.employee_id = a
      · right; intro hb; exact h ⟨ha.symm, hb.symm⟩
      · left; exact ha
    simp [List.filter_cons, hpred]

theorem byKey_mem_fields {st : List ScoreRow} {a b : String} {r : ScoreRow}
    (h : r ∈ byKey st a b) :
    r ∈ st ∧ r.employee_id = a ∧ r.criteria_id = b := by
  rcases List.mem_filter.mp h with ⟨hmem, hpred⟩
  simp only [Bool.and_eq_true, beq_iff_eq] at hpred
  exact ⟨hmem, hpred.1, hpred.2⟩

theorem byKey_upsertOne_update (st : List ScoreRow) (e : PlanEntry) (f : String)
    (hne : byKey st e.employee_id e.criteria_id ≠ []) :
    byKey (upsertOne st e f) e.employee_id e.criteria_id =
      (byKey st e.employee_id e.criteria_id).map
        (fun r => { r with score := e.score }) := by
  have hany : st.any (fun r => r.employee_id == e.employee_id &&
      r.criteria_id == e.criteria_id) = true :=
    (any_iff_filter_ne_nil _ _).mpr hne
  unfold upsertOne byKey
  rw [if_pos hany]
  rw [filter_map_comm (fun r => upsertOne_keyPred e r e.employee_id e.criteria_id)]
  apply List.map_congr_left
  intro r hr
  rcases byKey_mem_fields hr with ⟨-, h1, h2⟩
  rw [if_pos (by simp [h1, h2])]

theorem byKey_upsertOne_insert (st : List ScoreRow) (e : PlanEntry) (f : String)
    (hemp : byKey st e.employee_id e.criteria_id = []) :
    byKey (upsertOne st e f) e.employee_id e.criteria_id =
      [{ id := e.id.getD f, employee_id := e.employee_id,
         criteria_id := e.criteria_id, score := e.score }] := by
  have hany : st.any (fun r => r.employee_id == e.employee_id &&
      r.criteria_id == e.criteria_id) = false := by
    rcases Bool.eq_false_or_eq_true (st.any (fun r => r.employee_id == e.employee_id &&
      r.criteria_id == e.criteria_id)) with h | h
    · exact absurd hemp ((any_iff_filter_ne_nil _ _).mp h)
    · exact h
  unfold upsertOne byKey
  rw [if_neg (by simp [hany])]
  rw [List.filter_append]
  have : byKey st e.employee_id e.criteria_id = [] := hemp
  unfold byKey at this
  rw [this]
  simp [List.filter_cons]

theorem ScoresInvariant_upsertOne (st : List ScoreRow) (e : PlanEntry) (f : String)
    (hinv : ScoresInvariant st) : ScoresInvariant (upsertOne st e f) := by
  intro a b
  by_cases hk : a = e.employee_id ∧ b = e.criteria_id
  · rcases hk with ⟨rfl, rfl⟩
    cases hbk : byKey st e.employee_id e.criteria_id with
    | nil =>
      rw [byKey_upsertOne_insert st e f hbk]
      simp
    | cons r rs =>
      rw [byKey_upsertOne_update st e f (by rw [hbk]; simp)]
      rw [List.length_map]
      exact hinv _ _
  · rw [byKey_upsertOne_other st e f a b hk]
    exact hinv a b

theorem byKey_upsertOne_ne_nil (st : List ScoreRow) (e : PlanEntry) (f : String)
    (a b : String) (h : byKey st a b ≠ []) :
    byKey (upsertOne st e f) a b ≠ [] := by
  by_cases hk : a = e.employee_id ∧ b = e.criteria_id
  · rcases hk with ⟨rfl, rfl⟩
    cases hbk : byKey st e.employee_id e.criteria_id with
    | nil => exact absurd hbk h
    | cons r rs =>
      rw [byKey_upsertOne_update st e f (by rw [hbk]; simp)]
      rw [hbk]
      simp
  · rw [byKey_upsertOne_other st e f a b hk]
    exact h

theorem countFor_upsertOne (st : List ScoreRow) (e : PlanEntry) (f : String)
    (x : String) (hne : byKey st e.employee_id e.criteria_id ≠ []) :
    countFor (upsertOne st e f) x = countFor st x := by
  have hany : st.any (fun r => r.employee_id == e.employee_id &&
      r.criteria_id == e.criteria_id) = true :=
    (any_iff_filter_ne_nil _ _).mpr hne
  unfold upsertOne countFor
  rw [if_pos hany]
  rw [filter_map_comm (fun r => by split_ifs <;> rfl)]
  rw [List.length_map]

theorem byKey_upsertBatch_other :
    ∀ (plan : List PlanEntry) (st : List ScoreRow) (fr : Nat → String)
      (a b : String),
      (∀ p ∈ plan, ¬(a = p.employee_id ∧ b = p.criteria_id)) →
      byKey (upsertBatch st plan fr) a b = byKey st a b := by
  intro plan
  induction plan with
  | nil => intro st fr a b _; rfl
  | cons e rest ih =>
    intro st fr a b h
    show byKey (upsertBatch (upsertOne st e (fr 0)) rest (fun n => fr (n + 1))) a b =
      byKey st a b
    rw [ih _ _ a b (fun p hp => h p (List.mem_cons_of_mem _ hp))]
    exact byKey_upsertOne_other st e (fr 0) a b (h e (List.mem_cons_self _ _))

theorem ScoresInvariant_upsertBatch :
    ∀ (plan : List PlanEntry) (st : List ScoreRow) (fr : Nat → String),
      ScoresInvariant st → ScoresInvariant (upsertBatch st plan fr) := by
  intro plan
  induction plan with
  | nil => intro st fr h; exact h
  | cons e rest ih =>
    intro st fr h
    exact ih _ _ (ScoresInvariant_upsertOne st e (fr 0) h)

theorem byKey_upsertBatch_ne_nil :
    ∀ (plan : List PlanEntry) (st : List ScoreRow) (fr : Nat → String)
      (a b : String), byKey st a b ≠ [] →
      byKey (upsertBatch st plan fr) a b ≠ [] := by
  intro plan
  induction plan with
  | nil => intro st fr a b h; exact h
  | cons e rest ih =>
    intro st fr a b h
    exact ih _ _ a b (byKey_upsertOne_ne_nil st e (fr 0) a b h)

theorem singleton_of_length_le_one {α : Type} {l : List α} (h1 : l.length ≤ 1)
    (h2 : l ≠ []) : ∃ x, l = [x] := by
  cases l with
  | nil => exact absurd rfl h2
  | cons x xs =>
    cases xs with
    | nil => exact ⟨x, rfl⟩
    | cons y ys => simp at h1

/-- After the batch, every plan entry's key holds exactly one row, carrying
the entry's score (plan keys assumed unique, store invariant assumed). -/
theorem byKey_upsertBatch_covered :
    ∀ (plan : List PlanEntry) (st : List ScoreRow) (fr : Nat → String),
      ScoresInvariant st →
      (plan.map (fun p => (p.employee_id, p.criteria_id))).Nodup →
      ∀ p ∈ plan, ∃ r, byKey (upsertBatch st plan fr) p.employee_id p.criteria_id = [r] ∧
        r.score = p.score ∧ r.employee_id = p.employee_id ∧
        r.criteria_id = p.criteria_id := by
  intro plan
  induction plan with
  | nil => intro st fr _ _ p hp; simp at hp
  | cons e rest ih =>
    intro st fr hinv hnd p hp
    have hinv1 : ScoresInvariant (upsertOne st e (fr 0)) :=
      ScoresInvariant_upsertOne st e (fr 0) hinv
    rcases List.mem_cons.mp hp with rfl | hp
    · have hkey1 : ∃ r, byKey (upsertOne st p (fr 0)) p.employee_id p.criteria_id = [r] ∧
          r.score = p.score ∧ r.employee_id = p.employee_id ∧
          r.criteria_id = p.criteria_id := by
        cases hbk : byKey st p.employee_id p.criteria_id with
        | nil => exact ⟨_, byKey_upsertOne_insert st p (fr 0) hbk, rfl, rfl, rfl⟩
        | cons r rs =>
          have hne : byKey st p.employee_id p.criteria_id ≠ [] := by rw [hbk]; simp
          rcases singleton_of_length_le_one (hinv _ _) hne with ⟨x, hx⟩
          have hxmem : x ∈ byKey st p.employee_id p.criteria_id := by
            rw [hx]; exact List.mem_singleton_self x
          rcases byKey_mem_fields hxmem with ⟨-, hx1, hx2⟩
          refine ⟨{ x with score := p.score }, ?_, rfl, hx1, hx2⟩
          rw [byKey_upsertOne_update st p (fr 0) hne, hx]
          rfl
      rcases hkey1 with ⟨r, hr, hs, he1, he2⟩
      refine ⟨r, ?_, hs, he1, he2⟩
      show byKey (upsertBatch (upsertOne st p (fr 0)) rest (fun n => fr (n + 1)))
        p.employee_id p.criteria_id = [r]
      rw [List.map_cons] at hnd
      rw [byKey_upsertBatch_other rest _ _ _ _ ?_]
      · exact hr
      · intro q hq hcon
        have hhd := (List.nodup_cons.mp hnd).1
        exact hhd (List.mem_map.mpr ⟨q, hq, by rw [← hcon.1, ← hcon.2]⟩)
    · rw [List.map_cons] at hnd
      exact ih (upsertOne st e (fr 0)) _ hinv1 (List.nodup_cons.mp hnd).2 p hp

theorem countFor_upsertBatch :
    ∀ (plan : List PlanEntry) (st : List ScoreRow) (fr : Nat → String) (x : String),
      (∀ p ∈ plan, byKey st p.employee_id p.criteria_id ≠ []) →
      countFor (upsertBatch st plan fr) x = countFor st x := by
  intro plan
  induction plan with
  | nil => intro st fr x _; rfl
  | cons e rest ih =>
    intro st fr x h
    show countFor (upsertBatch (upsertOne st e (fr 0)) rest (fun n => fr (n + 1))) x =
      countFor st x
    rw [ih _ _ x (fun p hp =>
      byKey_upsertOne_ne_nil st e (fr 0) _ _ (h p (List.mem_cons_of_mem _ hp)))]
    exact countFor_upsertOne st e (fr 0) x (h e (List.mem_cons_self _ _))

theorem reconcile_keys (eid : String) (criteria : List Criteria)
    (fd : List (String × Int)) (ex : List ExistingScore) :
    (reconcile eid criteria fd ex).map (fun p => (p.employee_id, p.criteria_id)) =
      criteria.map (fun c => (eid, c.id)) := by
  simp [reconcile, List.map_map]

theorem reconcile_keys_nodup (eid : String) (criteria : List Criteria)
    (fd : List (String × Int)) (ex : List ExistingScore)
    (hids : (criteria.map (fun c => c.id)).Nodup) :
    ((reconcile eid criteria fd ex).map
      (fun p => (p.employee_id, p.criteria_id))).Nodup := by
  rw [reconcile_keys]
  have : criteria.map (fun c => (eid, c.id)) =
      (criteria.map (fun c => c.id)).map (fun i => (eid, i)) := by
    rw [List.map_map]
    rfl
  rw [this]
  exact hids.map (fun a b h => congrArg Prod.snd h)

/-- Claim C2: for a store satisfying the at-most-one-row invariant (and unique
current criterion ids), one submission preserves the invariant, and
resubmitting the identical evaluation leaves the employee's row count
unchanged. -/
theorem C2_upsert_invariant_resubmission (store : List ScoreRow) (eid : String)
    (criteria : List Criteria) (fd : List (String × Int))
    (fr1 fr2 : Nat → String) (hinv : ScoresInvariant store)
    (hids : (criteria.map (fun c => c.id)).Nodup) :
    ScoresInvariant (applySubmission store eid criteria fd fr1) ∧
    countFor (applySubmission (applySubmission store eid criteria fd fr1) eid
        criteria fd fr2) eid =
      countFor (applySubmission store eid criteria fd fr1) eid := by
  have hinv1 : ScoresInvariant (applySubmission store eid criteria fd fr1) :=
    ScoresInvariant_upsertBatch _ _ _ hinv
  refine ⟨hinv1, ?_⟩
  apply countFor_upsertBatch
  intro p hp
  rcases List.mem_map.mp hp with ⟨c, hc, rfl⟩
  rcases byKey_upsertBatch_covered
      (reconcile eid criteria fd (fetchExisting store eid)) store fr1 hinv
      (reconcile_keys_nodup eid criteria fd _ hids) _
      (List.mem_map_of_mem _ hc) with ⟨r, hr, -, -, -⟩
  show byKey (applySubmission store eid criteria fd fr1) eid c.id ≠ []
  have hr' : byKey (applySubmission store eid criteria fd fr1) eid c.id = [r] := hr
  rw [hr']
  simp

def demoFresh : Nat → String := fun _ => "fresh"

/-- Claim C2 witness: submitting and resubmitting the demo evaluation against
the empty store. -/
theorem C2_upsert_invariant_resubmission_witness :
    ScoresInvariant (applySubmission [] "e1" demoCriteria demoFd demoFresh) ∧
    countFor (applySubmission (applySubmission [] "e1" demoCriteria demoFd
        demoFresh) "e1" demoCriteria demoFd demoFresh) "e1" =
      countFor (applySubmission [] "e1" demoCriteria demoFd demoFresh) "e1" :=
  C2_upsert_invariant_resubmission [] "e1" demoCriteria demoFd demoFresh
    demoFresh (fun e c => by simp [byKey]) (by decide)

/-! ## Claim C9: failure paths -/

/-- Modelled from the spec: the persistence path of `handleSubmit` against an
abstract store with explicit failure flags.  The lookup-throws-before-upsert
ordering is the source's (EmployeeForm lines 293-302 then 330-338;
EditEmployeeDialog lines 171-179 then 207-214); the store applying the batch
atomically or not at all is the store contract of spec §4.5/§7. -/
def submitFlow (store : List ScoreRow) (fetchOk upsertOk : Bool) (eid : String)
    (criteria : List Criteria) (fd : List (String × Int))
    (fresh : Nat → String) : Except String (List ScoreRow) :=
  if fetchOk = false then Except.error "fetch failed"
  else
    let plan := reconcile eid criteria fd (fetchExisting store eid)
    if upsertOk = false then Except.error "upsert failed"
    else Except.ok (upsertBatch store plan fresh)

/-- The persisted state after a submission attempt: unchanged on any error. -/
def storeAfter (store : List ScoreRow) (fetchOk upsertOk : Bool) (eid : String)
    (criteria : List Criteria) (fd : List (String × Int))
    (fresh : Nat → String) : List ScoreRow :=
  match submitFlow store fetchOk upsertOk eid criteria fd fresh with
  | Except.error _ => store
  | Except.ok s => s

/-- Claim C9: a failed existing-score lookup aborts the submission with an
error before any upsert, and on any failure the persisted state is unchanged. -/
theorem C9_failure_no_upsert (store : List ScoreRow) (fetchOk upsertOk : Bool)
    (eid : String) (criteria : List Criteria) (fd : List (String × Int))
    (fresh : Nat → String) :
    (fetchOk = false →
      (∃ msg, submitFlow store fetchOk upsertOk eid criteria fd fresh =
        Except.error msg) ∧
      storeAfter store fetchOk upsertOk eid criteria fd fresh = store) ∧
    ((fetchOk = false ∨ upsertOk = false) →
      storeAfter store fetchOk upsertOk eid criteria fd fresh = store) := by
  constructor
  · intro h
    subst h
    exact ⟨⟨"fetch failed", rfl⟩, rfl⟩
  · rintro (h | h)
    · subst h; rfl
    · subst h
      by_cases hf : fetchOk = false
      · subst hf; rfl
      · have hft : fetchOk = true := by
          cases fetchOk
          · exact absurd rfl hf
          · rfl
        subst hft
        rfl

/-- Claim C9 witness. -/
theorem C9_failure_no_upsert_witness :
    storeAfter [] false true "e1" demoCriteria demoFd demoFresh = [] ∧
    storeAfter [] true false "e1" demoCriteria demoFd demoFresh = [] :=
  ⟨((C9_failure_no_upsert [] false true "e1" demoCriteria demoFd demoFresh).1
      rfl).2,
   (C9_failure_no_upsert [] true false "e1" demoCriteria demoFd demoFresh).2
      (Or.inr rfl)⟩

/-! ## Claim C10: falsy-coalescing record construction -/

/-- `formData[criteria.find(c => c.name === name)?.id || ''] || fallback`
(EmployeeForm lines 345-357). -/
def scoreFor (criteria : List Criteria) (fd : List (String × Int))
    (name : String) (fallback : Int) : Int :=
  jsOr (extraGet fd (jsOrStr ((criteria.find? (fun c => c.name == name)).map
    (fun c => c.id)) "")) fallback

/-- The in-memory `newEmployee` handed to `onAddEmployee` after a successful
save (EmployeeForm lines 341-365), dynamic criteria included. -/
def buildNewEmployee (employeeId employeeName : String)
    (criteria : List Criteria) (fd : List (String × Int)) : Employee :=
  { id := employeeId, name := employeeName,
    kualitasKerja := scoreFor criteria fd "Kualitas Kerja" 1,
    tanggungJawab := scoreFor criteria fd "Tanggung Jawab" 1,
    kuantitasKerja := scoreFor criteria fd "Kuantitas Kerja" 1,
    pemahamanTugas := scoreFor criteria fd "Pemahaman Tugas" 1,
    inisiatif := scoreFor criteria fd "Inisiatif" 1,
    kerjasama := scoreFor criteria fd "Kerjasama" 1,
    hariAlpa := scoreFor criteria fd "Jumlah Hari Alpa" 0,
    keterlambatan := scoreFor criteria fd "Jumlah Keterlambatan" 0,
    hariIzin := scoreFor criteria fd "Jumlah Hari Izin" 0,
    hariSakit := scoreFor criteria fd "Jumlah Hari Sakit" 0,
    pulangCepat := scoreFor criteria fd "Pulang Cepat" 0,
    prestasi := scoreFor criteria fd "Prestasi" 0,
    suratPeringatan := scoreFor criteria fd "Surat Peringatan" 0,
    extra := criteria.foldl (fun m c =>
      if c.name ∈ CANONICAL_CRITERIA_ORDER then m
      else extraSet m c.name (jsOr (extraGet fd c.id) 0)) [] }

/-- The `updatedEmployee` of the edit dialog (EditEmployeeDialog lines
217-233): spread of the previous record with
`formData[createFieldName(name)] || previous` per canonical field. -/
def updatedEmployee (employee : Employee) (fd : List (String × Int)) : Employee :=
  { employee with
    kualitasKerja := jsOr (extraGet fd (createFieldName "Kualitas Kerja"))
      employee.kualitasKerja,
    tanggungJawab := jsOr (extraGet fd (createFieldName "Tanggung Jawab"))
      employee.tanggungJawab,
    kuantitasKerja := jsOr (extraGet fd (createFieldName "Kuantitas Kerja"))
      employee.kuantitasKerja,
    pemahamanTugas := jsOr (extraGet fd (createFieldName "Pemahaman Tugas"))
      employee.pemahamanTugas,
    inisiatif := jsOr (extraGet fd (createFieldName "Inisiatif"))
      employee.inisiatif,
    kerjasama := jsOr (extraGet fd (createFieldName "Kerjasama"))
      employee.kerjasama,
    hariAlpa := jsOr (extraGet fd (createFieldName "Jumlah Hari Alpa"))
      employee.hariAlpa,
    keterlambatan := jsOr (extraGet fd (createFieldName "Jumlah Keterlambatan"))
      employee.keterlambatan,
    hariIzin := jsOr (extraGet fd (createFieldName "Jumlah Hari Izin"))
      employee.hariIzin,
    hariSakit := jsOr (extraGet fd (createFieldName "Jumlah Hari Sakit"))
      employee.hariSakit,
    pulangCepat := jsOr (extraGet fd (createFieldName "Pulang Cepat"))
      employee.pulangCepat,
    prestasi := jsOr (extraGet fd (createFieldName "Prestasi"))
      employee.prestasi,
    suratPeringatan := jsOr (extraGet fd (createFieldName "Surat Peringatan"))
      employee.suratPeringatan }

/-- Claim C10: both post-save record constructions use falsy `||` fallbacks,
so a submitted 0 surfaces as the fallback instead of the persisted 0: the
generic `scoreFor` helper returns the fallback whenever the looked-up value is
0 (each of the six core Benefit fields of `buildNewEmployee` is `scoreFor`
with fallback 1), the reconciliation plan stores 0 for that criterion, and in
the edit dialog a field edited to 0 keeps the employee's previous value. -/
theorem C10_falsy_fallback (criteria : List Criteria)
    (fd fd' : List (String × Int)) (eid ename : String)
    (existing : List ExistingScore) (e : Employee) :
    ((buildNewEmployee eid ename criteria fd).kualitasKerja =
        scoreFor criteria fd "Kualitas Kerja" 1 ∧
      (buildNewEmployee eid ename criteria fd).tanggungJawab =
        scoreFor criteria fd "Tanggung Jawab" 1 ∧
      (buildNewEmployee eid ename criteria fd).kuantitasKerja =
        scoreFor criteria fd "Kuantitas Kerja" 1 ∧
      (buildNewEmployee eid ename criteria fd).pemahamanTugas =
        scoreFor criteria fd "Pemahaman Tugas" 1 ∧
      (buildNewEmployee eid ename criteria fd).inisiatif =
        scoreFor criteria fd "Inisiatif" 1 ∧
      (buildNewEmployee eid ename criteria fd).kerjasama =
        scoreFor criteria fd "Kerjasama" 1) ∧
    (∀ name fb c, criteria.find? (fun x => x.name == name) = some c →
      c.id ≠ "" → extraGet fd c.id = some 0 →
      scoreFor criteria fd name fb = fb ∧
      ∃ p ∈ reconcile eid criteria fd existing,
        p.criteria_id = c.id ∧ p.score = 0) ∧
    (extraGet fd' (createFieldName "Kualitas Kerja") = some 0 →
      (updatedEmployee e fd').kualitasKerja = e.kualitasKerja) := by
  refine ⟨⟨rfl, rfl, rfl, rfl, rfl, rfl⟩, ?_, ?_⟩
  · intro name fb c hfind hid hzero
    constructor
    · unfold scoreFor
      rw [hfind]
      have hkey : jsOrStr (some c.id) "" = c.id := by simp [jsOrStr, hid]
      show jsOr (extraGet fd (jsOrStr (some c.id) "")) fb = fb
      rw [hkey, hzero]
      simp [jsOr]
    · have hc : c ∈ criteria := List.mem_of_find?_eq_some hfind
      refine ⟨_, List.mem_map_of_mem _ hc, rfl, ?_⟩
      show jsOr (extraGet fd c.id) 0 = 0
      rw [hzero]
      simp [jsOr]
  · intro h
    show jsOr (extraGet fd' (createFieldName "Kualitas Kerja")) e.kualitasKerja =
      e.kualitasKerja
    rw [h]
    simp [jsOr]

def demoKKCriteria : List Criteria :=
  [⟨"a", "Kualitas Kerja", "Benefit", "Kinerja Inti", 10, "1-5"⟩]

/-- Claim C10 witness: a submitted 0 for Kualitas Kerja surfaces as 1 in the
form's record and as the previous value in the edit dialog's record, while
the plan stores 0. -/
theorem C10_falsy_fallback_witness :
    scoreFor demoKKCriteria [("a", 0)] "Kualitas Kerja" 1 = 1 ∧
    (∃ p ∈ reconcile "e1" demoKKCriteria [("a", 0)] [],
      p.criteria_id = "a" ∧ p.score = 0) ∧
    (updatedEmployee (initialEmployee "x" "y") [("kualitas_kerja", 0)]).kualitasKerja =
      (initialEmployee "x" "y").kualitasKerja := by
  have h := C10_falsy_fallback demoKKCriteria [("a", 0)] [("kualitas_kerja", 0)]
    "e1" "Alice" [] (initialEmployee "x" "y")
  have h2 := h.2.1 "Kualitas Kerja" 1
    ⟨"a", "Kualitas Kerja", "Benefit", "Kinerja Inti", 10, "1-5"⟩
    (by decide) (by decide) (by decide)
  exact ⟨h2.1, h2.2, h.2.2 (by decide)⟩

/-! ## EvaluationProjector -/

/-- A row of the joined evaluation fetch (`evaluation_scores` with its
employee and criteria rows inner-joined), reduced to the fields the
projection reads. -/
structure EvaluationScoreJoined where
  employee_id : String
  employee_name : String
  criteria_name : String
  score : Int
deriving DecidableEq, Repr

/-- One `forEach` body application of the projection to the record under
construction. -/
def stepRow (e : Employee) (row : EvaluationScoreJoined) : Employee :=
  applyScore e row.criteria_name row.score

/-- One `forEach` step of `convertEvaluationScoresToEmployees` (EmployeeForm
lines 175-249): create the employee's record with default slots at first
sight, then write the row's score through the name switch.  The employee map
is a JS `Map` in insertion order. -/
def projStep (acc : List (String × Employee)) (row : EvaluationScoreJoined) :
    List (String × Employee) :=
  let acc' := if acc.any (fun p => p.1 == row.employee_id) then acc
    else acc ++ [(row.employee_id, initialEmployee row.employee_id row.employee_name)]
  acc'.map (fun p =>
    if p.1 == row.employee_id then (p.1, stepRow p.2 row) else p)

/-- `convertEvaluationScoresToEmployees` (EmployeeForm lines 172-252):
`Array.from(employeeMap.values())` after folding every score row. -/
def convertEvaluationScoresToEmployees (rows : List EvaluationScoreJoined) :
    List Employee :=
  (rows.foldl projStep []).map (fun p => p.2)

/-- The record the projection ends up with for one employee, given the
previously accumulated record (if any) and the employee's rows. -/
def projResult (prev : Option Employee) (k : String)
    (rs : List EvaluationScoreJoined) : Option Employee :=
  match prev, rs with
  | some e, rs => some (rs.foldl stepRow e)
  | none, [] => none
  | none, r :: rs => some ((r :: rs).foldl stepRow (initialEmployee k r.employee_name))

theorem extraGet_map_keyPreserving {α : Type} (g : String × α → String × α)
    (hg : ∀ p, (g p).1 = p.1) (k : String) :
    ∀ m : List (String × α),
      extraGet (m.map g) k = (m.find? (fun p => p.1 == k)).map (fun p => (g p).2) := by
  intro m
  induction m with
  | nil => rfl
  | cons p ps ih =>
    simp only [List.map_cons, extraGet, List.find?]
    rw [show ((g p).1 == k) = (p.1 == k) from by rw [hg p]]
    cases hp : p.1 == k with
    | true => rfl
    | false => exact ih

theorem extraGet_isSome_any {α : Type} (m : List (String × α)) (k : String) :
    (extraGet m k).isSome = m.any (fun p => p.1 == k) := by
  cases hf : m.find? (fun p => p.1 == k) with
  | none =>
    have hnone := List.find?_eq_none.mp hf
    have hany : m.any (fun p => p.1 == k) = false := by
      rcases Bool.eq_false_or_eq_true (m.any fun p => p.1 == k) with hb | hb
      · rcases List.any_eq_true.mp hb with ⟨x, hx, hpx⟩
        exact absurd hpx (hnone x hx)
      · exact hb
    rw [hany]
    unfold extraGet
    rw [hf]
    rfl
  | some p =>
    have hany : m.any (fun p => p.1 == k) = true := by
      have h2 := List.find?_some hf
      exact List.any_eq_true.mpr ⟨p, List.mem_of_find?_eq_some hf, h2⟩
    rw [hany]
    unfold extraGet
    rw [hf]
    rfl

theorem projStep_extraGet_other (acc : List (String × Employee))
    (row : EvaluationScoreJoined) (k : String) (h : k ≠ row.employee_id) :
    extraGet (projStep acc row) k = extraGet acc k := by
  unfold projStep
  have hg : ∀ p : String × Employee,
      ((if p.1 == row.employee_id then (p.1, stepRow p.2 row) else p)).1 = p.1 := by
    intro p; split_ifs <;> rfl
  rw [extraGet_map_keyPreserving _ hg]
  have hfind : ∀ m : List (String × Employee),
      m.find? (fun p => p.1 == k) = none ∨
      ∃ p, m.find? (fun p => p.1 == k) = some p ∧ p.1 = k := by
    intro m
    cases hf : m.find? (fun p => p.1 == k) with
    | none => exact Or.inl rfl
    | some p =>
      refine Or.inr ⟨p, rfl, ?_⟩
      have := List.find?_some hf
      simpa using this
  split_ifs with hany
  · rcases hfind acc with hf | ⟨p, hf, hp⟩
    · simp [extraGet, hf]
    · have hgp : (if p.1 == row.employee_id then (p.1, stepRow p.2 row) else p) = p :=
        if_neg (by simp [hp]; exact h)
      unfold extraGet
      rw [hf]
      show some ((if p.1 == row.employee_id then (p.1, stepRow p.2 row) else p)).2 =
        some p.2
      rw [hgp]
  · have happ : (acc ++ [(row.employee_id,
        initialEmployee row.employee_id row.employee_name)]).find?
          (fun p => p.1 == k) = acc.find? (fun p => p.1 == k) := by
      rw [List.find?_append]
      cases hf : acc.find? (fun p => p.1 == k) with
      | some p => rfl
      | none =>
        simp only [Option.none_or]
        have : ((row.employee_id, initialEmployee row.employee_id
            row.employee_name).1 == k) = false := by
          simp only [beq_eq_false_iff_ne, ne_eq]
          exact fun hc => h hc.symm
        simp [List.find?, this]
    rw [happ]
    rcases hfind acc with hf | ⟨p, hf, hp⟩
    · simp [extraGet, hf]
    · have hgp : (if p.1 == row.employee_id then (p.1, stepRow p.2 row) else p) = p :=
        if_neg (by simp [hp]; exact h)
      unfold extraGet
      rw [hf]
      show some ((if p.1 == row.employee_id then (p.1, stepRow p.2 row) else p)).2 =
        some p.2
      rw [hgp]

theorem projStep_extraGet_self (acc : List (String × Employee))
    (row : EvaluationScoreJoined) :
    extraGet (projStep acc row) row.employee_id =
      some (stepRow (match extraGet acc row.employee_id with
        | some e => e
        | none => initialEmployee row.employee_id row.employee_name) row) := by
  unfold projStep
  have hg : ∀ p : String × Employee,
      ((if p.1 == row.employee_id then (p.1, stepRow p.2 row) else p)).1 = p.1 := by
    intro p; split_ifs <;> rfl
  rw [extraGet_map_keyPreserving _ hg]
  cases hacc : extraGet acc row.employee_id with
  | some e =>
    have hany : acc.any (fun p => p.1 == row.employee_id) = true := by
      rw [← extraGet_isSome_any, hacc]; rfl
    rw [if_pos hany]
    rcases hfo : acc.find? (fun p => p.1 == row.employee_id) with - | p
    · rw [extraGet, hfo] at hacc; simp at hacc
    · have hp1 : p.1 = row.employee_id := by
        have := List.find?_some hfo
        simpa using this
      have hp2 : p.2 = e := by
        rw [extraGet, hfo] at hacc
        simpa using hacc
      rw [hfo]
      simp [hp1, hp2]
  | none =>
    have hany : acc.any (fun p => p.1 == row.employee_id) = false := by
      rw [← extraGet_isSome_any, hacc]; rfl
    rw [if_neg (by simp [hany])]
    rw [List.find?_append]
    have hfacc : acc.find? (fun p => p.1 == row.employee_id) = none := by
      rw [extraGet] at hacc
      cases hf : acc.find? (fun p => p.1 == row.employee_id) with
      | none => rfl
      | some p => rw [hf] at hacc; simp at hacc
    rw [hfacc]
    simp [List.find?]

theorem proj_fold_extraGet :
    ∀ (rows : List EvaluationScoreJoined) (acc : List (String × Employee))
      (k : String),
      extraGet (rows.foldl projStep acc) k =
        projResult (extraGet acc k) k
          (rows.filter (fun r => r.employee_id == k)) := by
  intro rows
  induction rows with
  | nil =>
    intro acc k
    simp only [List.foldl_nil, List.filter_nil]
    cases h : extraGet acc k <;> simp [projResult, h]
  | cons row rs ih =>
    intro acc k
    simp only [List.foldl_cons, List.filter_cons]
    rw [ih]
    by_cases hrow : row.employee_id == k
    · have hk : k = row.employee_id := by
        have : row.employee_id = k := by simpa using hrow
        exact this.symm
      rw [if_pos hrow]
      subst hk
      rw [projStep_extraGet_self]
      cases hacc : extraGet acc row.employee_id with
      | some e => simp [projResult]
      | none =>
        cases hfil : rs.filter (fun r => r.employee_id == row.employee_id) with
        | nil => simp [projResult]
        | cons r rs' => simp [projResult]
    · have hk : k ≠ row.employee_id := by
        intro hc
        rw [hc] at hrow
        simp at hrow
      rw [if_neg (by simpa using hrow)]
      rw [projStep_extraGet_other acc row k hk]

theorem projStep_keys (acc : List (String × Employee))
    (row : EvaluationScoreJoined) :
    (projStep acc row).map (fun p => p.1) =
      if row.employee_id ∈ acc.map (fun p => p.1) then acc.map (fun p => p.1)
      else acc.map (fun p => p.1) ++ [row.employee_id] := by
  have hmap : ∀ m : List (String × Employee),
      (m.map (fun p => if p.1 == row.employee_id then (p.1, stepRow p.2 row)
        else p)).map (fun p => p.1) = m.map (fun p => p.1) := by
    intro m
    rw [List.map_map]
    apply List.map_congr_left
    intro p _
    show (if p.1 == row.employee_id then (p.1, stepRow p.2 row) else p).1 = p.1
    split_ifs <;> rfl
  have hany_iff : acc.any (fun p => p.1 == row.employee_id) = true ↔
      row.employee_id ∈ acc.map (fun p => p.1) := by
    rw [List.any_eq_true]
    constructor
    · rintro ⟨p, hp, hpe⟩
      exact List.mem_map.mpr ⟨p, hp, by simpa using hpe⟩
    · intro h
      rcases List.mem_map.mp h with ⟨p, hp, he⟩
      exact ⟨p, hp, by simp [he]⟩
  unfold projStep
  by_cases hin : row.employee_id ∈ acc.map (fun p => p.1)
  · rw [if_pos hin, if_pos (hany_iff.mpr hin)]
    exact hmap acc
  · have hany : acc.any (fun p => p.1 == row.employee_id) = false := by
      rcases Bool.eq_false_or_eq_true (acc.any fun p => p.1 == row.employee_id)
        with h | h
      · exact absurd (hany_iff.mp h) hin
      · exact h
    rw [if_neg hin, if_neg (by simp [hany])]
    rw [hmap]
    rw [List.map_append]
    rfl

theorem proj_fold_keys :
    ∀ (rows : List EvaluationScoreJoined) (acc : List (String × Employee)),
      (rows.foldl projStep acc).map (fun p => p.1) =
        rows.foldl (fun ks r =>
          if r.employee_id ∈ ks then ks else ks ++ [r.employee_id])
          (acc.map (fun p => p.1)) := by
  intro rows
  induction rows with
  | nil => intro acc; rfl
  | cons r rs ih =>
    intro acc
    simp only [List.foldl_cons]
    rw [ih, projStep_keys]

/-- First-seen order of a list of ids. -/
def firstSeen (l : List String) : List String :=
  l.foldl (fun ks e => if e ∈ ks then ks else ks ++ [e]) []

theorem proj_ids :
    ∀ (rows : List EvaluationScoreJoined) (acc : List (String × Employee)),
      (∀ p ∈ acc, (p.2).id = p.1) →
      ∀ p ∈ rows.foldl projStep acc, (p.2).id = p.1 := by
  intro rows
  induction rows with
  | nil => intro acc h p hp; exact h p hp
  | cons r rs ih =>
    intro acc h p hp
    refine ih _ ?_ p hp
    intro q hq
    unfold projStep at hq
    rcases List.mem_map.mp hq with ⟨q0, hq0, rfl⟩
    have hq0' : q0 ∈ acc ∨
        q0 = (r.employee_id, initialEmployee r.employee_id r.employee_name) := by
      by_cases hany : acc.any (fun p => p.1 == r.employee_id)
      · rw [if_pos hany] at hq0
        exact Or.inl hq0
      · rw [if_neg hany] at hq0
        rcases List.mem_append.mp hq0 with h1 | h1
        · exact Or.inl h1
        · exact Or.inr (by simpa using h1)
    have hid : (q0.2).id = q0.1 := by
      rcases hq0' with h1 | h1
      · exact h q0 h1
      · rw [h1]
        rfl
    split_ifs with hc
    · show (stepRow q0.2 r).id = q0.1
      rw [stepRow, applyScore_id, hid]
    · exact hid

/-- `createEmployeeFieldMapping`'s fixed table (EditEmployeeDialog lines
83-97). -/
def specialEmployeeMappings : List (String × String) :=
  [("kualitas_kerja", "kualitasKerja"), ("tanggung_jawab", "tanggungJawab"),
   ("kuantitas_kerja", "kuantitasKerja"), ("pemahaman_tugas", "pemahamanTugas"),
   ("inisiatif", "inisiatif"), ("kerjasama", "kerjasama"),
   ("jumlah_hari_alpa", "hariAlpa"), ("jumlah_keterlambatan", "keterlambatan"),
   ("jumlah_hari_izin", "hariIzin"), ("jumlah_hari_sakit", "hariSakit"),
   ("pulang_cepat", "pulangCepat"), ("prestasi", "prestasi"),
   ("surat_peringatan", "suratPeringatan")]

/-- `createEmployeeFieldMapping` (EditEmployeeDialog lines 79-100):
`specialMappings[createFieldName(name)] || createFieldName(name)`. -/
def createEmployeeFieldMapping (criteriaName : String) : String :=
  let fieldName := createFieldName criteriaName
  jsOrStr (extraGet specialEmployeeMappings fieldName) fieldName

/-- Claim C8 counterexample: the projection's switch matches raw criterion
names exactly, not through the name normalization of the field mapper: the
name `Kualitas Kerja!` maps to the legacy field `kualitasKerja` under the
field mapper, yet the projection leaves the `kualitasKerja` slot at its
default and files the value under the raw name in the extension mapping. -/
theorem C8_projection_cex :
    createEmployeeFieldMapping "Kualitas Kerja!" = "kualitasKerja" ∧
    ((convertEvaluationScoresToEmployees
        [⟨"e1", "Alice", "Kualitas Kerja!", 4⟩]).get ⟨0, by decide⟩).kualitasKerja
      = 1 ∧
    extraGet ((convertEvaluationScoresToEmployees
        [⟨"e1", "Alice", "Kualitas Kerja!", 4⟩]).get ⟨0, by decide⟩).extra
        "Kualitas Kerja!" = some 4 := by
  refine ⟨by decide, by decide, by decide⟩

/-- Claim C8 (amended): the projection emits one record per distinct employee
id in first-seen order; a tuple's value is written into the named slot exactly
when its criterion name is literally one of the thirteen canonical names, and
otherwise into the extension mapping keyed by the raw name. -/
theorem C8_projection_amended (rows : List EvaluationScoreJoined) :
    (convertEvaluationScoresToEmployees rows).map (fun e => e.id) =
      firstSeen (rows.map (fun r => r.employee_id)) ∧
    (∀ (e : Employee) (n : String) (v : Int), n ∈ CANONICAL_CRITERIA_ORDER →
      (applyScore e n v).extra = e.extra) ∧
    (∀ (e : Employee) (n : String) (v : Int), n ∉ CANONICAL_CRITERIA_ORDER →
      applyScore e n v = { e with extra := extraSet e.extra n v }) ∧
    (∀ (e : Employee) (n m : String) (v : Int),
      getSlot (applyScore e n v) m = if n = m then v else getSlot e m) := by
  refine ⟨?_, fun e n v h => applyScore_extra_known e n v h,
    fun e n v h => applyScore_extra_unknown e n v h,
    fun e n m v => getSlot_applyScore e n m v⟩
  unfold convertEvaluationScoresToEmployees
  rw [List.map_map]
  have hcongr : (rows.foldl projStep []).map ((fun e => e.id) ∘ (fun p => p.2)) =
      (rows.foldl projStep []).map (fun p => p.1) := by
    apply List.map_congr_left
    intro p hp
    exact proj_ids rows [] (by intro q hq; simp at hq) p hp
  rw [hcongr, proj_fold_keys]
  unfold firstSeen
  rw [List.foldl_map]
  rfl

/-- Claim C8 witness: a canonical name keeps the extension mapping unchanged,
a non-canonical name goes to the extension mapping. -/
theorem C8_projection_amended_witness :
    (applyScore (initialEmployee "x" "y") "Prestasi" 3).extra =
      (initialEmployee "x" "y").extra ∧
    applyScore (initialEmployee "x" "y") "Absensi Baru" 2 =
      { initialEmployee "x" "y" with
        extra := extraSet (initialEmployee "x" "y").extra "Absensi Baru" 2 } :=
  ⟨(C8_projection_amended []).2.1 (initialEmployee "x" "y") "Prestasi" 3
      (by decide),
   (C8_projection_amended []).2.2.1 (initialEmployee "x" "y") "Absensi Baru" 2
      (by decide)⟩

/-! ## Round trip: joined fetch and slot reads after a submission -/

/-- Modelled from the spec: one row of `fetchAllJoined` (spec §6) — the inner
joins attach the employee's name and the criterion's name; rows whose
employee or criterion is missing are dropped by the inner join. -/
def joinRow (directory : List (String × String)) (criteria : List Criteria)
    (r : ScoreRow) : Option EvaluationScoreJoined :=
  match extraGet directory r.employee_id,
      criteria.find? (fun c => c.id == r.criteria_id) with
  | some ename, some c => some ⟨r.employee_id, ename, c.name, r.score⟩
  | _, _ => none

/-- Modelled from the spec: the joined evaluation fetch (spec §6
`fetchAllJoined`). -/
def fetchAllJoined (store : List ScoreRow) (directory : List (String × String))
    (criteria : List Criteria) : List EvaluationScoreJoined :=
  store.filterMap (joinRow directory criteria)

theorem joinRow_eid (directory : List (String × String)) (criteria : List Criteria)
    (r : ScoreRow) (j : EvaluationScoreJoined)
    (h : joinRow directory criteria r = some j) :
    j.employee_id = r.employee_id := by
  unfold joinRow at h
  cases h1 : extraGet directory r.employee_id with
  | none => rw [h1] at h; simp at h
  | some ename =>
    cases h2 : criteria.find? (fun c => c.id == r.criteria_id) with
    | none => rw [h1, h2] at h; simp at h
    | some c =>
      rw [h1, h2] at h
      simp only [Option.some_inj] at h
      rw [← h]

theorem filter_filterMap_comm {α β : Type} (f : α → Option β) (p : β → Bool)
    (q : α → Bool) (h : ∀ x y, f x = some y → p y = q x) :
    ∀ l : List α, (l.filterMap f).filter p = (l.filter q).filterMap f := by
  intro l
  induction l with
  | nil => rfl
  | cons a as ih =>
    cases hfa : f a with
    | none =>
      rw [List.filterMap_cons_none hfa, List.filter_cons]
      cases hqa : q a with
      | true =>
        simp only [if_true]
        rw [List.filterMap_cons_none hfa, ih]
      | false =>
        simp only [Bool.false_eq_true, if_false]
        exact ih
    | some b =>
      rw [List.filterMap_cons_some hfa, List.filter_cons, List.filter_cons]
      have hpb : p b = q a := h a b hfa
      cases hqa : q a with
      | true =>
        rw [hqa] at hpb
        simp only [hpb, if_true]
        rw [List.filterMap_cons_some hfa, ih]
      | false =>
        rw [hqa] at hpb
        simp only [hpb, Bool.false_eq_true, if_false]
        exact ih

theorem find?_eq_head?_filter {α : Type} (p : α → Bool) :
    ∀ l : List α, l.find? p = (l.filter p).head? := by
  intro l
  induction l with
  | nil => rfl
  | cons a as ih =>
    rw [List.filter_cons]
    cases ha : p a with
    | true =>
      rw [List.find?_cons_of_pos _ ha]
      simp
    | false =>
      rw [List.find?_cons_of_neg _ (by simp [ha])]
      simp only [Bool.false_eq_true, if_false]
      exact ih

theorem find?_id_nodup (criteria : List Criteria)
    (hids : (criteria.map (fun c => c.id)).Nodup) (c : Criteria)
    (hc : c ∈ criteria) : criteria.find? (fun x => x.id == c.id) = some c := by
  cases hf : criteria.find? (fun x => x.id == c.id) with
  | none =>
    have := List.find?_eq_none.mp hf c hc
    simp at this
  | some c' =>
    have hmem := List.mem_of_find?_eq_some hf
    have hpred := List.find?_some hf
    have : c' = c := List.inj_on_of_nodup_map hids hmem hc (by simpa using hpred)
    rw [this]

theorem bool_eq_of_iff {a b : Bool} (h : a = true ↔ b = true) : a = b := by
  cases a <;> cases b <;> simp_all

/-- Last-written score for a slot name among a fold's rows, or the default. -/
def lastScore (rs : List EvaluationScoreJoined) (m : String) (dflt : Int) : Int :=
  match rs.reverse.find? (fun r => r.criteria_name == m) with
  | some r => r.score
  | none => dflt

theorem getSlot_foldl :
    ∀ (rs : List EvaluationScoreJoined) (e : Employee) (m : String),
      getSlot (rs.foldl stepRow e) m = lastScore rs m (getSlot e m) := by
  intro rs
  induction rs with
  | nil => intro e m; rfl
  | cons r rest ih =>
    intro e m
    simp only [List.foldl_cons]
    rw [ih]
    unfold lastScore
    simp only [List.reverse_cons, List.find?_append]
    cases hf : rest.reverse.find? (fun x => x.criteria_name == m) with
    | some j => simp
    | none =>
      simp only [Option.none_or]
      show _ = (match List.find? (fun x => x.criteria_name == m) [r] with
        | some x => x.score
        | none => getSlot e m)
      by_cases hr : r.criteria_name == m
      · have hfr : List.find? (fun x => x.criteria_name == m) [r] = some r := by
          simp [hr]
        rw [hfr]
        show getSlot (stepRow e r) m = r.score
        rw [stepRow, getSlot_applyScore]
        rw [if_pos (by simpa using hr)]
      · have hr' : (r.criteria_name == m) = false := by simpa using hr
        have hfr : List.find? (fun x => x.criteria_name == m) [r] = none := by
          simp [List.find?, hr']
        rw [hfr]
        show getSlot (stepRow e r) m = getSlot e m
        rw [stepRow, getSlot_applyScore]
        rw [if_neg (by simpa using hr)]

theorem foldl_stepRow_id (rs : List EvaluationScoreJoined) :
    ∀ e : Employee, (rs.foldl stepRow e).id = e.id := by
  induction rs with
  | nil => intro e; rfl
  | cons r rest ih =>
    intro e
    simp only [List.foldl_cons]
    rw [ih, stepRow, applyScore_id]

theorem foldl_stepRow_name (rs : List EvaluationScoreJoined) :
    ∀ e : Employee, (rs.foldl stepRow e).name = e.name := by
  induction rs with
  | nil => intro e; rfl
  | cons r rest ih =>
    intro e
    simp only [List.foldl_cons]
    rw [ih, stepRow, applyScore_name]

/-- Claim C3: after a submission is upserted, projecting the joined persisted
score set yields a record for the employee that carries exactly the submitted
value for every submitted criterion and the projection's default for every
canonical slot whose criterion was not part of the current criteria set.
Hypotheses: store invariant, unique criterion ids and names, no stale rows for
the employee outside the current criteria, the employee present in the
directory, and a non-empty criteria set. -/
theorem C3_round_trip (store : List ScoreRow) (eid ename : String)
    (criteria : List Criteria) (fd : List (String × Int)) (fresh : Nat → String)
    (dir : List (String × String))
    (hinv : ScoresInvariant store)
    (hids : (criteria.map (fun c => c.id)).Nodup)
    (hnames : (criteria.map (fun c => c.name)).Nodup)
    (hcover : ∀ r ∈ store, r.employee_id = eid →
      r.criteria_id ∈ criteria.map (fun c => c.id))
    (hdir : extraGet dir eid = some ename)
    (hne : criteria ≠ []) :
    ∃ rec ∈ convertEvaluationScoresToEmployees
        (fetchAllJoined (applySubmission store eid criteria fd fresh) dir criteria),
      rec.id = eid ∧ rec.name = ename ∧
      (∀ c ∈ criteria, ∀ v : Int, extraGet fd c.id = some v →
        getSlot rec c.name = v) ∧
      (∀ n ∈ CANONICAL_CRITERIA_ORDER, n ∉ criteria.map (fun c => c.name) →
        getSlot rec n = getSlot (initialEmployee eid ename) n) := by
  set s' := applySubmission store eid criteria fd fresh with hsdef
  have hB : ∀ c ∈ criteria, ∃ r, byKey s' eid c.id = [r] ∧
      r.score = jsOr (extraGet fd c.id) 0 ∧ r.employee_id = eid ∧
      r.criteria_id = c.id := by
    intro c hc
    rcases byKey_upsertBatch_covered
        (reconcile eid criteria fd (fetchExisting store eid)) store fresh hinv
        (reconcile_keys_nodup eid criteria fd _ hids) _
        (List.mem_map_of_mem _ hc) with ⟨r, hr, hs, h1, h2⟩
    exact ⟨r, hr, hs, h1, h2⟩
  have hC : ∀ cid, cid ∉ criteria.map (fun c => c.id) → byKey s' eid cid = [] := by
    intro cid hcid
    have hplan : ∀ p ∈ reconcile eid criteria fd (fetchExisting store eid),
        ¬(eid = p.employee_id ∧ cid = p.criteria_id) := by
      intro p hp hcon
      rcases List.mem_map.mp hp with ⟨c, hc, rfl⟩
      apply hcid
      rw [show cid = c.id from hcon.2]
      exact List.mem_map_of_mem _ hc
    have h1 : byKey s' eid cid = byKey store eid cid :=
      byKey_upsertBatch_other _ _ _ _ _ hplan
    rw [h1]
    unfold byKey
    rw [List.filter_eq_nil_iff]
    intro r hr
    simp only [Bool.and_eq_true, beq_iff_eq, not_and]
    intro h1' h2'
    exact hcid (h2' ▸ hcover r hr h1')
  have hDmem : ∀ r ∈ s'.filter (fun r => r.employee_id == eid),
      r.criteria_id ∈ criteria.map (fun c => c.id) := by
    intro r hr
    by_contra hcid
    have h0 := hC r.criteria_id hcid
    have hmem : r ∈ byKey s' eid r.criteria_id := by
      rcases List.mem_filter.mp hr with ⟨hmem, hpred⟩
      exact List.mem_filter.mpr ⟨hmem, by simp [hpred]⟩
    rw [h0] at hmem
    simp at hmem
  have hbyKey_filter : ∀ cid,
      (s'.filter (fun r => r.employee_id == eid)).filter
        (fun r => r.criteria_id == cid) = byKey s' eid cid := by
    intro cid
    rw [List.filter_filter]
    unfold byKey
    apply List.filter_congr
    intro r _
    exact Bool.and_comm _ _
  have hEq : (fetchAllJoined s' dir criteria).filter
      (fun j => j.employee_id == eid) =
      (s'.filter (fun r => r.employee_id == eid)).filterMap
        (joinRow dir criteria) := by
    unfold fetchAllJoined
    exact filter_filterMap_comm _ _ _
      (fun x y hxy => by rw [joinRow_eid dir criteria x y hxy]) s'
  have hjoinFull : ∀ r ∈ s'.filter (fun r => r.employee_id == eid),
      ∃ cr, cr ∈ criteria ∧ cr.id = r.criteria_id ∧
        joinRow dir criteria r = some ⟨eid, ename, cr.name, r.score⟩ := by
    intro r hr
    rcases List.mem_filter.mp hr with ⟨hmem, hpred⟩
    have hre : r.employee_id = eid := by simpa using hpred
    rcases List.mem_map.mp (hDmem r hr) with ⟨cr, hcr, hcrid⟩
    refine ⟨cr, hcr, hcrid, ?_⟩
    unfold joinRow
    rw [hre, hdir]
    rw [show criteria.find? (fun c => c.id == r.criteria_id) = some cr from by
      rw [← hcrid]; exact find?_id_nodup criteria hids cr hcr]
  have hJnames : ∀ j ∈ (fetchAllJoined s' dir criteria).filter
      (fun j => j.employee_id == eid), j.employee_name = ename := by
    intro j hj
    rw [hEq] at hj
    rcases List.mem_filterMap.mp hj with ⟨r, hr, hjr⟩
    rcases hjoinFull r hr with ⟨cr, -, -, hjoin⟩
    rw [hjoin] at hjr
    have := Option.some_inj.mp hjr
    rw [← this]
  have hJfilterName : ∀ n : String,
      ((fetchAllJoined s' dir criteria).filter
        (fun j => j.employee_id == eid)).filter
          (fun j => j.criteria_name == n) =
      ((s'.filter (fun r => r.employee_id == eid)).filter (fun r =>
          match criteria.find? (fun c0 => c0.id == r.criteria_id) with
          | some c0 => c0.name == n
          | none => false)).filterMap (joinRow dir criteria) := by
    intro n
    rw [hEq]
    apply filter_filterMap_comm
    intro x y hxy
    unfold joinRow at hxy
    cases h1 : extraGet dir x.employee_id with
    | none => rw [h1] at hxy; simp at hxy
    | some en =>
      cases h2 : criteria.find? (fun c0 => c0.id == x.criteria_id) with
      | none => rw [h1, h2] at hxy; simp at hxy
      | some c0 =>
        rw [h1, h2] at hxy
        have hy := Option.some_inj.mp hxy
        show (y.criteria_name == n) = (c0.name == n)
        rw [← hy]
  obtain ⟨c₀, hc₀⟩ : ∃ c, c ∈ criteria := by
    cases criteria with
    | nil => exact absurd rfl hne
    | cons a l => exact ⟨a, List.mem_cons_self _ _⟩
  rcases hB c₀ hc₀ with ⟨r₀, hr₀, -, hre₀, -⟩
  have hr₀mem : r₀ ∈ s'.filter (fun r => r.employee_id == eid) := by
    have hbk : r₀ ∈ byKey s' eid c₀.id := by
      rw [hr₀]; exact List.mem_singleton_self _
    rcases byKey_mem_fields hbk with ⟨hmem, h1, h2⟩
    exact List.mem_filter.mpr ⟨hmem, by simp [h1]⟩
  rcases hjoinFull r₀ hr₀mem with ⟨cr₀, -, -, hjoin₀⟩
  have hJne : (fetchAllJoined s' dir criteria).filter
      (fun r => r.employee_id == eid) ≠ [] := by
    rw [hEq]
    intro hcon
    have hjmem : (⟨eid, ename, cr₀.name, r₀.score⟩ : EvaluationScoreJoined) ∈
        (s'.filter (fun r => r.employee_id == eid)).filterMap
          (joinRow dir criteria) :=
      List.mem_filterMap.mpr ⟨r₀, hr₀mem, hjoin₀⟩
    rw [hcon] at hjmem
    simp at hjmem
  obtain ⟨j, js, hJ⟩ : ∃ j js, (fetchAllJoined s' dir criteria).filter
      (fun r => r.employee_id == eid) = j :: js := by
    cases hj : (fetchAllJoined s' dir criteria).filter
        (fun r => r.employee_id == eid) with
    | nil => exact absurd hj hJne
    | cons a l => exact ⟨a, l, rfl⟩
  have hjen : j.employee_name = ename :=
    hJnames j (by rw [hJ]; exact List.mem_cons_self _ _)
  have hfold := proj_fold_extraGet (fetchAllJoined s' dir criteria) [] eid
  have hrecEq : extraGet ((fetchAllJoined s' dir criteria).foldl projStep []) eid =
      some ((j :: js).foldl stepRow (initialEmployee eid ename)) := by
    rw [hfold, hJ]
    show some ((j :: js).foldl stepRow (initialEmployee eid j.employee_name)) =
      some ((j :: js).foldl stepRow (initialEmployee eid ename))
    rw [hjen]
  have hrecMem : ((j :: js).foldl stepRow (initialEmployee eid ename)) ∈
      convertEvaluationScoresToEmployees (fetchAllJoined s' dir criteria) := by
    unfold convertEvaluationScoresToEmployees
    unfold extraGet at hrecEq
    cases hfp : ((fetchAllJoined s' dir criteria).foldl projStep []).find?
        (fun p => p.1 == eid) with
    | none => rw [hfp] at hrecEq; simp at hrecEq
    | some pair =>
      rw [hfp] at hrecEq
      have hpr : pair.2 = (j :: js).foldl stepRow (initialEmployee eid ename) := by
        simpa using hrecEq
      exact List.mem_map.mpr ⟨pair, List.mem_of_find?_eq_some hfp, hpr⟩
  refine ⟨(j :: js).foldl stepRow (initialEmployee eid ename), hrecMem, ?_, ?_, ?_, ?_⟩
  · rw [foldl_stepRow_id]
    rfl
  · rw [foldl_stepRow_name]
    rfl
  · intro c hc v hv
    rw [getSlot_foldl]
    rcases hB c hc with ⟨r0, hr0, hscore, hre, hrc⟩
    have hfilterEq : (j :: js).filter (fun x => x.criteria_name == c.name) =
        [⟨eid, ename, c.name, r0.score⟩] := by
      rw [← hJ, hJfilterName c.name]
      have hq : (s'.filter (fun r => r.employee_id == eid)).filter (fun r =>
          match criteria.find? (fun c0 => c0.id == r.criteria_id) with
          | some c0 => c0.name == c.name
          | none => false) =
          (s'.filter (fun r => r.employee_id == eid)).filter
            (fun r => r.criteria_id == c.id) := by
        apply List.filter_congr
        intro r hr
        rcases hjoinFull r hr with ⟨cr, hcrmem, hcrid, -⟩
        rw [show criteria.find? (fun c0 => c0.id == r.criteria_id) = some cr from by
          rw [← hcrid]; exact find?_id_nodup criteria hids cr hcrmem]
        show (cr.name == c.name) = (r.criteria_id == c.id)
        apply bool_eq_of_iff
        constructor
        · intro hname
          have hcc : cr = c := List.inj_on_of_nodup_map hnames hcrmem hc
            (by simpa using hname)
          rw [← hcrid, hcc]
          simp
        · intro hcid
          have hcid' : r.criteria_id = c.id := by simpa using hcid
          have hcc : cr = c := List.inj_on_of_nodup_map hids hcrmem hc
            (by rw [hcrid, hcid'])
          rw [hcc]
          simp
      rw [hq, hbyKey_filter, hr0]
      have hjr0 : joinRow dir criteria r0 = some ⟨eid, ename, c.name, r0.score⟩ := by
        unfold joinRow
        rw [hre, hdir, hrc, find?_id_nodup criteria hids c hc]
      rw [List.filterMap_cons_some hjr0, List.filterMap_nil]
    unfold lastScore
    rw [find?_eq_head?_filter, List.filter_reverse, hfilterEq]
    show r0.score = v
    rw [hscore, hv, jsOr_some]
  · intro n hnmem hnot
    rw [getSlot_foldl]
    have hfilterEq : (j :: js).filter (fun x => x.criteria_name == n) = [] := by
      rw [← hJ, hJfilterName n]
      have hq : (s'.filter (fun r => r.employee_id == eid)).filter (fun r =>
          match criteria.find? (fun c0 => c0.id == r.criteria_id) with
          | some c0 => c0.name == n
          | none => false) = [] := by
        rw [List.filter_eq_nil_iff]
        intro r hr
        rcases hjoinFull r hr with ⟨cr, hcrmem, hcrid, -⟩
        rw [show criteria.find? (fun c0 => c0.id == r.criteria_id) = some cr from by
          rw [← hcrid]; exact find?_id_nodup criteria hids cr hcrmem]
        show ¬(cr.name == n) = true
        simp only [beq_iff_eq]
        intro hcon
        exact hnot (hcon ▸ List.mem_map_of_mem _ hcrmem)
      rw [hq]
      rfl
    unfold lastScore
    rw [find?_eq_head?_filter, List.filter_reverse, hfilterEq]
    rfl

/-- Claim C3 witness: submitting the demo evaluation against the empty store
and projecting back. -/
theorem C3_round_trip_witness :
    ∃ rec ∈ convertEvaluationScoresToEmployees
        (fetchAllJoined (applySubmission [] "e1" demoCriteria demoFd demoFresh)
          [("e1", "Alice")] demoCriteria),
      rec.id = "e1" ∧ rec.name = "Alice" ∧
      (∀ c ∈ demoCriteria, ∀ v : Int, extraGet demoFd c.id = some v →
        getSlot rec c.name = v) ∧
      (∀ n ∈ CANONICAL_CRITERIA_ORDER, n ∉ demoCriteria.map (fun c => c.name) →
        getSlot rec n = getSlot (initialEmployee "e1" "Alice") n) :=
  C3_round_trip [] "e1" "Alice" demoCriteria demoFd demoFresh [("e1", "Alice")]
    (fun e c => by simp [byKey]) (by decide) (by decide)
    (fun r hr => absurd hr (by simp)) (by decide) (by decide)
